import Mathlib

/-! # Micromagnetics: masked Laplacian and material property initialisation

A shallow embedding of `Source/MagLaplacian.H` and of
`InitializeMagneticProperties` and `SetPhiBC_z` from `Source/MicroMag.cpp`.

Modelling conventions.

* `amrex::Real` is embedded as `ℚ`: the statements are about exact arithmetic.
  Where rounding decides a property, the x-axis functions are embedded a second
  time over binary64 values (`Binary64`), every operation rounded.
* Grid indices (`int`) are embedded as `Int`; indices stay inside the allocated
  boxes, so wrap-around never occurs.
* `amrex::Array4<Real>` is embedded as a total function of three indices.
* The geometry object is reduced to the parts the code reads: the cell size
  array, the index domain and the periodicity flags.
-/

namespace MicroMag

/-! ## Data model -/

/-- Embedding of `amrex::Real` (exact arithmetic). -/
abbrev Real := ℚ

/-- Embedding of `amrex::GpuArray<T,3>`: three components indexed `0,1,2`. -/
abbrev GpuArray (α : Type) := Fin 3 → α

/-- Embedding of `amrex::Array4<amrex::Real>`: a field read as `F(i,j,k)`. -/
abbrev Array4 := Int → Int → Int → Real

/-- Embedding of `amrex::Box`: an index box with inclusive corners. -/
structure Box where
  /-- low corner (inclusive), per axis -/
  smallEnd : GpuArray Int
  /-- high corner (inclusive), per axis -/
  bigEnd : GpuArray Int

/-- Embedding of the parts of `amrex::Geometry` read by the code. -/
structure Geometry where
  /-- value returned by `geom.CellSizeArray()` -/
  CellSizeArray : GpuArray Real
  /-- index domain of the problem -/
  Domain : Box
  /-- periodicity flag of each axis -/
  isPeriodic : GpuArray Bool

/-! ## `MagLaplacian.H`: axis difference primitives -/

/-- Source `UpwardDx`: forward difference along x. -/
def UpwardDx (F : Array4) (i j k : Int) (geom : Geometry) : Real :=
  let dx := geom.CellSizeArray
  let inv_dx := 1 / dx 0
  inv_dx * (F (i + 1) j k - F i j k)

/-- Source `DownwardDx`: backward difference along x. -/
def DownwardDx (F : Array4) (i j k : Int) (geom : Geometry) : Real :=
  let dx := geom.CellSizeArray
  let inv_dx := 1 / dx 0
  inv_dx * (F i j k - F (i - 1) j k)

/-- Source `UpwardDy`: forward difference along y. -/
def UpwardDy (F : Array4) (i j k : Int) (geom : Geometry) : Real :=
  let dx := geom.CellSizeArray
  let inv_dy := 1 / dx 1
  inv_dy * (F i (j + 1) k - F i j k)

/-- Source `DownwardDy`: backward difference along y. -/
def DownwardDy (F : Array4) (i j k : Int) (geom : Geometry) : Real :=
  let dx := geom.CellSizeArray
  let inv_dy := 1 / dx 1
  inv_dy * (F i j k - F i (j - 1) k)

/-- Source `UpwardDz`: forward difference along z. -/
def UpwardDz (F : Array4) (i j k : Int) (geom : Geometry) : Real :=
  let dx := geom.CellSizeArray
  let inv_dz := 1 / dx 2
  inv_dz * (F i j (k + 1) - F i j k)

/-- Source `DownwardDz`: backward difference along z. -/
def DownwardDz (F : Array4) (i j k : Int) (geom : Geometry) : Real :=
  let dx := geom.CellSizeArray
  let inv_dz := 1 / dx 2
  inv_dz * (F i j k - F i j (k - 1))

/-! ## `MagLaplacian.H`: masked per-axis Laplacians and their sum -/

/-- Source `LaplacianDx_Mag`: divergence of gradient along x on the M field. -/
def LaplacianDx_Mag (F : Array4) (Ms_lo_x Ms_hi_x : Real) (i j k : Int)
    (geom : Geometry) : Real :=
  let dx := geom.CellSizeArray
  let inv_dx := 1 / dx 0
  if Ms_hi_x = 0 then
    inv_dx * (0 - DownwardDx F i j k geom)
  else if Ms_lo_x = 0 then
    inv_dx * (UpwardDx F i j k geom - 0)
  else
    inv_dx * (UpwardDx F i j k geom - DownwardDx F i j k geom)

/-- Source `LaplacianDy_Mag`: divergence of gradient along y on the M field. -/
def LaplacianDy_Mag (F : Array4) (Ms_lo_y Ms_hi_y : Real) (i j k : Int)
    (geom : Geometry) : Real :=
  let dx := geom.CellSizeArray
  let inv_dy := 1 / dx 1
  if Ms_hi_y = 0 then
    inv_dy * (0 - DownwardDy F i j k geom)
  else if Ms_lo_y = 0 then
    inv_dy * (UpwardDy F i j k geom - 0)
  else
    inv_dy * (UpwardDy F i j k geom - DownwardDy F i j k geom)

/-- Source `LaplacianDz_Mag`: divergence of gradient along z on the M field. -/
def LaplacianDz_Mag (F : Array4) (Ms_lo_z Ms_hi_z : Real) (i j k : Int)
    (geom : Geometry) : Real :=
  let dx := geom.CellSizeArray
  let inv_dz := 1 / dx 2
  if Ms_hi_z = 0 then
    inv_dz * (0 - DownwardDz F i j k geom)
  else if Ms_lo_z = 0 then
    inv_dz * (UpwardDz F i j k geom - 0)
  else
    inv_dz * (UpwardDz F i j k geom - DownwardDz F i j k geom)

/-- Source `Laplacian_Mag`: the sum of the three per-axis masked Laplacians. -/
def Laplacian_Mag (F : Array4)
    (Ms_lo_x Ms_hi_x Ms_lo_y Ms_hi_y Ms_lo_z Ms_hi_z : Real)
    (i j k : Int) (geom : Geometry) : Real :=
  LaplacianDx_Mag F Ms_lo_x Ms_hi_x i j k geom
    + LaplacianDy_Mag F Ms_lo_y Ms_hi_y i j k geom
    + LaplacianDz_Mag F Ms_lo_z Ms_hi_z i j k geom

/-! ## Field containers and the parallel-for dispatch -/

/-- Embedding of `Box::contains` on a cell index. -/
def Box.contains (b : Box) (i j k : Int) : Prop :=
  (b.smallEnd 0 ≤ i ∧ i ≤ b.bigEnd 0) ∧ (b.smallEnd 1 ≤ j ∧ j ≤ b.bigEnd 1) ∧
    (b.smallEnd 2 ≤ k ∧ k ≤ b.bigEnd 2)

instance (b : Box) (i j k : Int) : Decidable (b.contains i j k) := by
  unfold Box.contains
  infer_instance

/-- Embedding of `amrex::grow`: the box enlarged by `n` cells on every side. -/
def Box.grow (b : Box) (n : Int) : Box :=
  { smallEnd := fun d => b.smallEnd d - n, bigEnd := fun d => b.bigEnd d + n }

/-- The integers `lo, lo+1, ..., hi` in increasing order (empty when `hi < lo`). -/
def intRange (lo hi : Int) : List Int :=
  (List.range (hi + 1 - lo).toNat).map fun (n : Nat) => lo + (n : Int)

/-- The cells of a box in loop order: `k` outermost, `i` innermost. -/
def Box.cells (b : Box) : List (Int × Int × Int) :=
  (intRange (b.smallEnd 2) (b.bigEnd 2)).flatMap fun k =>
    (intRange (b.smallEnd 1) (b.bigEnd 1)).flatMap fun j =>
      (intRange (b.smallEnd 0) (b.bigEnd 0)).map fun i => (i, j, k)

/-- Modelled from the spec: the parallel-for dispatch is an external collaborator,
"a primitive that applies a per-cell function over a given sub-region's index
range". The per-cell function is run once on every cell of the box, here in loop
order, threading the state it mutates. -/
def ParallelFor {σ : Type} (bx : Box) (f : Int → Int → Int → σ → σ) (s : σ) : σ :=
  bx.cells.foldl (fun t c => f c.1 c.2.1 c.2.2 t) s

/-- Write `F(i,j,k) = v` through an `Array4` view. -/
def Array4.set (F : Array4) (i j k : Int) (v : Real) : Array4 :=
  fun a b c => if a = i ∧ b = j ∧ c = k then v else F a b c

/-- Embedding of `amrex::MultiFab`: the valid boxes of the locally owned
sub-regions, the number of ghost cells, and the data of each sub-region
(`array n` is the view returned by `array(mfi)` at the `n`-th iteration). -/
structure MultiFab where
  /-- valid boxes of the owned sub-regions, in iteration order -/
  boxArray : List Box
  /-- width of the ghost (overlap) band -/
  nGrow : Nat
  /-- data of the `n`-th sub-region, valid and ghost cells alike -/
  array : Nat → Array4

/-- Modelled from the spec: the field container is an external collaborator;
`setVal` puts one value in every cell (valid and ghost) of every sub-region
("fields were pre-cleared to background beforehand"). -/
def MultiFab.setVal (mf : MultiFab) (v : Real) : MultiFab :=
  { mf with array := fun _ _ _ _ => v }

/-- Store the data written through the view of the `n`-th sub-region. -/
def MultiFab.setArray (mf : MultiFab) (n : Nat) (A : Array4) : MultiFab :=
  { mf with array := fun m => if m = n then A else mf.array m }

/-- Embedding of `amrex::Periodicity`: the period in cells per axis, `0` when the
axis is not periodic. -/
structure Periodicity where
  /-- period of each axis in cells -/
  period : GpuArray Int

/-- Modelled from the spec: the geometry collaborator supplies "whether an axis is
periodic"; the period of a periodic axis is the length of the index domain. -/
def Geometry.periodicity (geom : Geometry) : Periodicity :=
  { period := fun d =>
      if geom.isPeriodic d then geom.Domain.bigEnd d - geom.Domain.smallEnd d + 1 else 0 }

/-- The index shifts under which a cell is looked up: every combination of
`0, -period, +period` per axis, the zero shift first. -/
def Periodicity.shiftIntVect (p : Periodicity) : List (Int × Int × Int) :=
  [0, -1, 1].flatMap fun c => [0, -1, 1].flatMap fun b => [0, -1, 1].map fun a =>
    ((a : Int) * p.period 0, (b : Int) * p.period 1, (c : Int) * p.period 2)

/-- The values that valid cells of `mf` offer for cell `(i,j,k)`, directly or as a
periodic image. -/
def MultiFab.ghostSources (mf : MultiFab) (p : Periodicity) (i j k : Int) : List Real :=
  p.shiftIntVect.flatMap fun s =>
    mf.boxArray.enum.filterMap fun nb =>
      if nb.2.contains (i + s.1) (j + s.2.1) (k + s.2.2) then
        some (mf.array nb.1 (i + s.1) (j + s.2.1) (k + s.2.2))
      else none

/-- Modelled from the spec: `FillBoundary` is the container's "ability to
synchronize overlap (ghost) regions across decomposition boundaries". Every ghost
cell of a sub-region (a cell of the grown box outside the valid box) that is a valid
cell of some sub-region, directly or through a periodic shift, receives that valid
value; valid cells and uncovered ghost cells keep their value. -/
def MultiFab.FillBoundary (mf : MultiFab) (p : Periodicity) : MultiFab :=
  { mf with
    array := fun n i j k =>
      match mf.boxArray[n]? with
      | none => mf.array n i j k
      | some vb =>
        if vb.contains i j k then mf.array n i j k
        else if (vb.grow mf.nGrow).contains i j k then
          ((mf.ghostSources p i j k).head?).getD (mf.array n i j k)
        else mf.array n i j k }

/-- Modelled from the spec: iteration "over locally owned sub-regions" (`MFIter`):
the loop body is run on each valid box in turn, with the index of the
sub-region. -/
def MFIter.forEach {σ : Type} (body : Nat → Box → σ → σ) :
    List Box → Nat → σ → σ
  | [], _, s => s
  | bx :: rest, n, s => MFIter.forEach body rest (n + 1) (body n bx s)

/-! ## `MicroMag.cpp`: `InitializeMagneticProperties` -/

/-- The five `Array4` views of one sub-region captured by the kernel. -/
structure PropertyArrays where
  /-- view of `alpha` -/
  alpha_arr : Array4
  /-- view of `gamma` -/
  gamma_arr : Array4
  /-- view of `Ms` -/
  Ms_arr : Array4
  /-- view of `exchange` -/
  exchange_arr : Array4
  /-- view of `anisotropy` -/
  anisotropy_arr : Array4

/-- The five property fields, the state mutated by the initializer. -/
structure MagneticProperties where
  /-- Gilbert damping field -/
  alpha : MultiFab
  /-- saturation magnetisation field -/
  Ms : MultiFab
  /-- gyromagnetic ratio field -/
  gamma : MultiFab
  /-- exchange coefficient field -/
  exchange : MultiFab
  /-- anisotropy coefficient field -/
  anisotropy : MultiFab

/-- Source: the per-cell body of the `ParallelFor` in
`InitializeMagneticProperties`. -/
def InitializeMagneticProperties.kernel
    (alpha_val Ms_val gamma_val exchange_val anisotropy_val : Real)
    (prob_lo mag_lo mag_hi dx : GpuArray Real)
    (i j k : Int) (s : PropertyArrays) : PropertyArrays :=
  let x := prob_lo 0 + ((i : Real) + 0.5) * dx 0
  let y := prob_lo 1 + ((j : Real) + 0.5) * dx 1
  let z := prob_lo 2 + ((k : Real) + 0.5) * dx 2
  if x > mag_lo 0 ∧ x < mag_hi 0 then
    if y > mag_lo 1 ∧ y < mag_hi 1 then
      if z > mag_lo 2 ∧ z < mag_hi 2 then
        { alpha_arr := s.alpha_arr.set i j k alpha_val
          gamma_arr := s.gamma_arr.set i j k gamma_val
          Ms_arr := s.Ms_arr.set i j k Ms_val
          exchange_arr := s.exchange_arr.set i j k exchange_val
          anisotropy_arr := s.anisotropy_arr.set i j k anisotropy_val }
      else s
    else s
  else s

/-- Source: the body of the `MFIter` loop of `InitializeMagneticProperties` for the
sub-region with index `n` and valid box `bx`. -/
def InitializeMagneticProperties.loopBody
    (alpha_val Ms_val gamma_val exchange_val anisotropy_val : Real)
    (prob_lo mag_lo mag_hi : GpuArray Real) (geom : Geometry)
    (n : Nat) (bx : Box) (s : MagneticProperties) : MagneticProperties :=
  let dx := geom.CellSizeArray
  let arrs : PropertyArrays :=
    { alpha_arr := s.alpha.array n
      gamma_arr := s.gamma.array n
      Ms_arr := s.Ms.array n
      exchange_arr := s.exchange.array n
      anisotropy_arr := s.anisotropy.array n }
  let out := ParallelFor bx
    (InitializeMagneticProperties.kernel alpha_val Ms_val gamma_val exchange_val
      anisotropy_val prob_lo mag_lo mag_hi dx) arrs
  { alpha := s.alpha.setArray n out.alpha_arr
    Ms := s.Ms.setArray n out.Ms_arr
    gamma := s.gamma.setArray n out.gamma_arr
    exchange := s.exchange.setArray n out.exchange_arr
    anisotropy := s.anisotropy.setArray n out.anisotropy_arr }

/-- Source `InitializeMagneticProperties`: clear the five fields, write the material
values on the cells whose centre is strictly inside the region, then fill the ghost
cells. The five mutated fields are returned. -/
def InitializeMagneticProperties (alpha Ms gamma exchange anisotropy : MultiFab)
    (alpha_val Ms_val gamma_val exchange_val anisotropy_val : Real)
    (prob_lo _prob_hi mag_lo mag_hi : GpuArray Real) (geom : Geometry) :
    MagneticProperties :=
  let cleared : MagneticProperties :=
    { alpha := alpha.setVal 0
      Ms := Ms.setVal 0
      gamma := gamma.setVal 0
      exchange := exchange.setVal 0
      anisotropy := anisotropy.setVal 0 }
  let written := MFIter.forEach
    (InitializeMagneticProperties.loopBody alpha_val Ms_val gamma_val exchange_val
      anisotropy_val prob_lo mag_lo mag_hi geom) alpha.boxArray 0 cleared
  { alpha := written.alpha.FillBoundary geom.periodicity
    Ms := written.Ms.FillBoundary geom.periodicity
    gamma := written.gamma.FillBoundary geom.periodicity
    exchange := written.exchange.FillBoundary geom.periodicity
    anisotropy := written.anisotropy.FillBoundary geom.periodicity }

/-- The cell-centre coordinate along one axis, as the kernel computes it. -/
def cellCentre (prob_lo dx : GpuArray Real) (d : Fin 3) (n : Int) : Real :=
  prob_lo d + ((n : Real) + 0.5) * dx d

/-- The centre of cell `(i,j,k)` lies strictly inside the region on all three
axes. -/
def centreStrictlyInside (prob_lo mag_lo mag_hi dx : GpuArray Real) (i j k : Int) : Prop :=
  (mag_lo 0 < cellCentre prob_lo dx 0 i ∧ cellCentre prob_lo dx 0 i < mag_hi 0) ∧
  (mag_lo 1 < cellCentre prob_lo dx 1 j ∧ cellCentre prob_lo dx 1 j < mag_hi 1) ∧
  (mag_lo 2 < cellCentre prob_lo dx 2 k ∧ cellCentre prob_lo dx 2 k < mag_hi 2)

instance (prob_lo mag_lo mag_hi dx : GpuArray Real) (i j k : Int) :
    Decidable (centreStrictlyInside prob_lo mag_lo mag_hi dx i j k) := by
  unfold centreStrictlyInside
  infer_instance

/-! ## Test fixtures -/

/-- A geometry with the given cell sizes on the index domain `[0,4]^3`,
non-periodic. -/
def geomOfSpacing (dx dy dz : Real) : Geometry :=
  { CellSizeArray := ![dx, dy, dz]
    Domain := { smallEnd := ![0, 0, 0], bigEnd := ![4, 4, 4] }
    isPeriodic := ![false, false, false] }

/-- The field `F(i,j,k) = i^2 + 2 j^2 + 3 k^2`. -/
def quadField : Array4 := fun i j k => (i : Real) ^ 2 + 2 * (j : Real) ^ 2 + 3 * (k : Real) ^ 2

/-- The field `quadField` with the value at one grid point replaced by `v`. -/
def quadFieldWith (p q r : Int) (v : Real) : Array4 :=
  fun a b c => if (a, b, c) = (p, q, r) then v else quadField a b c

/-- The scenario field `F = [0, 1, 4, 9, 16]` along x (zero outside `0..4`). -/
def scenarioField : Array4 := fun i _ _ =>
  if 0 ≤ i then (([0, 1, 4, 9, 16] : List Real).getD i.toNat 0) else 0

/-- Low-side indicator of the scenario: zero at index 0 only. -/
def scenarioMsLo (i : Int) : Real := if i = 0 then 0 else 1

/-- High-side indicator of the scenario: zero at index 4 only. -/
def scenarioMsHi (i : Int) : Real := if i = 4 then 0 else 1

/-- The field `F(i,j,k) = i + j + k`. -/
def rampField : Array4 := fun i j k => (i : Real) + (j : Real) + (k : Real)

/-- The low half `[0,1] x [0,3] x [0,3]` of the fixture domain. -/
def fixtureBoxLo : Box := { smallEnd := ![0, 0, 0], bigEnd := ![1, 3, 3] }

/-- The high half `[2,3] x [0,3] x [0,3]` of the fixture domain. -/
def fixtureBoxHi : Box := { smallEnd := ![2, 0, 0], bigEnd := ![3, 3, 3] }

/-- A field on the two fixture boxes with one ghost cell, holding `v` everywhere. -/
def fixtureFab (v : Real) : MultiFab :=
  { boxArray := [fixtureBoxLo, fixtureBoxHi], nGrow := 1, array := fun _ _ _ _ => v }

/-- Unit spacing on the index domain `[0,3]^3`, periodic along x. -/
def fixtureGeom : Geometry :=
  { CellSizeArray := ![1, 1, 1]
    Domain := { smallEnd := ![0, 0, 0], bigEnd := ![3, 3, 3] }
    isPeriodic := ![true, false, false] }

/-- The initializer run on the fixture fields with the region
`(3/2, 4) x (0, 4) x (0, 4)`: the centre of cell `(1,1,1)` has `x = 3/2`, exactly on
the low bound. -/
def fixtureProperties : MagneticProperties :=
  InitializeMagneticProperties (fixtureFab 1) (fixtureFab 2) (fixtureFab 3) (fixtureFab 4)
    (fixtureFab 5) 11 22 33 44 55 ![0, 0, 0] ![4, 4, 4] ![3 / 2, 0, 0] ![4, 4, 4]
    fixtureGeom

/-! ## Fields named by the properties -/

/-- The quadratic field `F(i,j,k) = i^2 * dx^2` of C9. -/
def squareField (dx : Real) : Array4 := fun i _ _ => (i : Real) ^ 2 * dx ^ 2

/-- The field mirrored across the x-axis origin: `G(i,j,k) = F(-i,j,k)`. -/
def mirrorX (F : Array4) : Array4 := fun i j k => F (-i) j k

/-- The field mirrored across the y-axis origin: `G(i,j,k) = F(i,-j,k)`. -/
def mirrorY (F : Array4) : Array4 := fun i j k => F i (-j) k

/-- The field mirrored across the z-axis origin: `G(i,j,k) = F(i,j,-k)`. -/
def mirrorZ (F : Array4) : Array4 := fun i j k => F i j (-k)

/-- The field `a*F + b*G`, pointwise. -/
def linearCombination (a b : Real) (F G : Array4) : Array4 :=
  fun i j k => a * F i j k + b * G i j k

/-- The spatially constant field `F(i,j,k) = c`. -/
def constField (c : Real) : Array4 := fun _ _ _ => c

/-- The sum over `i = a..b` of the masked x-Laplacian along the strip `(·, j, k)`,
with the indicators of each point given by `Ms_lo` and `Ms_hi`. -/
def stripSumDx (F : Array4) (Ms_lo Ms_hi : Int → Real) (a b j k : Int)
    (geom : Geometry) : Real :=
  Finset.sum (Finset.Icc a b) fun i => LaplacianDx_Mag F (Ms_lo i) (Ms_hi i) i j k geom

/-- The sum over `j = a..b` of the masked y-Laplacian along the strip `(i, ·, k)`. -/
def stripSumDy (F : Array4) (Ms_lo Ms_hi : Int → Real) (a b i k : Int)
    (geom : Geometry) : Real :=
  Finset.sum (Finset.Icc a b) fun j => LaplacianDy_Mag F (Ms_lo j) (Ms_hi j) i j k geom

/-- The sum over `k = a..b` of the masked z-Laplacian along the strip `(i, j, ·)`. -/
def stripSumDz (F : Array4) (Ms_lo Ms_hi : Int → Real) (a b i j : Int)
    (geom : Geometry) : Real :=
  Finset.sum (Finset.Icc a b) fun k => LaplacianDz_Mag F (Ms_lo k) (Ms_hi k) i j k geom

/-! ## `MicroMag.cpp`: `SetPhiBC_z` -/

/-- Modelled from the spec: `growntilebox(ng)` of the iterator, without tiling, is
the valid box of the sub-region grown by `ng` cells on every side (the
"one-cell-grown box" for `ng = 1`). -/
def MFIter.growntilebox (validbox : Box) (ng : Int) : Box := validbox.grow ng

/-- Source: the per-cell body of the `ParallelFor` in `SetPhiBC_z`. -/
def SetPhiBC_z.kernel (n_cell : GpuArray Int) (Phi_Bc_lo Phi_Bc_hi : Real)
    (i j k : Int) (Phi : Array4) : Array4 :=
  if k < 0 then
    Phi.set i j k Phi_Bc_lo
  else if k ≥ n_cell 2 then
    Phi.set i j k Phi_Bc_hi
  else Phi

/-- Source: the body of the `MFIter` loop of `SetPhiBC_z` for the sub-region with
index `n` and valid box `vbx`. -/
def SetPhiBC_z.loopBody (n_cell : GpuArray Int) (Phi_Bc_lo Phi_Bc_hi : Real)
    (n : Nat) (vbx : Box) (PoissonPhi : MultiFab) : MultiFab :=
  let bx := MFIter.growntilebox vbx 1
  let Phi := PoissonPhi.array n
  PoissonPhi.setArray n (ParallelFor bx (SetPhiBC_z.kernel n_cell Phi_Bc_lo Phi_Bc_hi) Phi)

/-- Source `SetPhiBC_z`: on the one-cell-grown box of every sub-region, set the
cells below the domain in z to `Phi_Bc_lo` and those above it to `Phi_Bc_hi`. The
mutated field is returned. -/
def SetPhiBC_z (PoissonPhi : MultiFab) (n_cell : GpuArray Int)
    (Phi_Bc_lo Phi_Bc_hi : Real) : MultiFab :=
  MFIter.forEach (SetPhiBC_z.loopBody n_cell Phi_Bc_lo Phi_Bc_hi) PoissonPhi.boxArray 0
    PoissonPhi

/-! ## Fixture for `SetPhiBC_z` -/

/-- A potential on the two fixture boxes with one ghost cell, holding
`100*k + 10*j + i` in every cell of every sub-region. -/
def fixturePhi : MultiFab :=
  { boxArray := [fixtureBoxLo, fixtureBoxHi], nGrow := 1
    array := fun _ i j k => 100 * (k : Real) + 10 * (j : Real) + (i : Real) }

/-! ## Material block and cell ownership -/

/-- The smallest index along axis `d` whose cell centre lies above `mag_lo[d]`, for
a positive spacing. -/
def materialLo (prob_lo mag_lo dx : GpuArray Real) (d : Fin 3) : Int :=
  ⌊(mag_lo d - prob_lo d) / dx d - 1 / 2⌋ + 1

/-- The largest index along axis `d` whose cell centre lies below `mag_hi[d]`, for
a positive spacing. -/
def materialHi (prob_lo mag_hi dx : GpuArray Real) (d : Fin 3) : Int :=
  ⌈(mag_hi d - prob_lo d) / dx d - 1 / 2⌉ - 1

/-- The cell `(i,j,k)` is an owned cell: some valid box of the layout contains it. -/
def MultiFab.ownsCell (mf : MultiFab) (i j k : Int) : Prop :=
  ∃ bx ∈ mf.boxArray, bx.contains i j k

instance (mf : MultiFab) (i j k : Int) : Decidable (mf.ownsCell i j k) := by
  unfold MultiFab.ownsCell
  infer_instance

/-- The cell `(i,j,k)` is an owned cell of the sub-region with index `n`: the valid
box of that sub-region contains it. -/
def MultiFab.ownsAt (mf : MultiFab) (n : Nat) (i j k : Int) : Prop :=
  match mf.boxArray[n]? with
  | some bx => bx.contains i j k
  | none => False

instance (mf : MultiFab) (n : Nat) (i j k : Int) : Decidable (mf.ownsAt n i j k) := by
  unfold MultiFab.ownsAt
  split <;> infer_instance

/-! ## Fixtures for the neighbour property -/

/-- The whole fixture domain `[0,3]^3` as one box. -/
def fixtureBoxWhole : Box := { smallEnd := ![0, 0, 0], bigEnd := ![3, 3, 3] }

/-- A field on the single box `fixtureBoxWhole` with one ghost cell, holding `v`
everywhere. -/
def fixtureFabWhole (v : Real) : MultiFab :=
  { boxArray := [fixtureBoxWhole], nGrow := 1, array := fun _ _ _ _ => v }

/-- The initializer run on the single-box fixture with the region `(1, 2)^3`, which
holds the centre `(3/2, 3/2, 3/2)` of cell `(1,1,1)` and no other cell centre. -/
def isolatedCellProperties : MagneticProperties :=
  InitializeMagneticProperties (fixtureFabWhole 1) (fixtureFabWhole 2) (fixtureFabWhole 3)
    (fixtureFabWhole 4) (fixtureFabWhole 5) 11 22 33 44 55 ![0, 0, 0] ![4, 4, 4]
    ![1, 1, 1] ![2, 2, 2] fixtureGeom

/-- The initializer run on the two-box fixture with the region
`(1, 3) x (0, 4) x (0, 4)`: the material cells `(1,j,k)` and `(2,j,k)` lie on either
side of the seam between the two sub-regions. -/
def seamProperties : MagneticProperties :=
  InitializeMagneticProperties (fixtureFab 1) (fixtureFab 2) (fixtureFab 3) (fixtureFab 4)
    (fixtureFab 5) 11 22 33 44 55 ![0, 0, 0] ![4, 4, 4] ![1, 0, 0] ![3, 4, 4] fixtureGeom

/-! ## IEEE binary64 arithmetic

The statements on exact arithmetic use `Real := ℚ`. To evaluate the code as it
runs, the x-axis functions are embedded a second time over finite binary64 values
with every operation rounded to nearest, ties to even. -/

/-- Modelled from the spec: "standard IEEE double-precision arithmetic". A finite
binary64 value, written `m * 2^e`; the exponent range is not bounded, so overflow
and subnormal numbers are outside the model. -/
structure Binary64 where
  /-- signed integer significand -/
  m : Int
  /-- binary exponent -/
  e : Int
deriving DecidableEq

/-- The value zero. -/
def Binary64.zero : Binary64 := ⟨0, 0⟩

/-- The rational number a binary64 value stands for. -/
def Binary64.toRat (x : Binary64) : ℚ := (x.m : ℚ) * (2 : ℚ) ^ x.e

/-- The number of halvings that bring `n` below 2, with `fuel` bounding the
recursion. -/
def floorLog2Fuel : Nat → Nat → Nat
  | 0, _ => 0
  | fuel + 1, n => if n < 2 then 0 else floorLog2Fuel fuel (n / 2) + 1

/-- The integer part of the binary logarithm of `n > 0`; `n` itself is enough
fuel. -/
def floorLog2 (n : Nat) : Nat := floorLog2Fuel n n

/-- The integer nearest to `N / D`, ties to the even integer. -/
def roundHalfEven (N D : Nat) : Nat :=
  let q := N / D
  let r := N % D
  if 2 * r < D then q else if D < 2 * r then q + 1 else q + q % 2

/-- The binary64 value nearest to `num / den` for `den > 0`: the exponent `e` is
chosen with `2^52 <= num / (den * 2^e) < 2^53`, and the 53-bit significand is that
quotient rounded to nearest, ties to even. -/
def Binary64.roundPos (num den : Nat) : Binary64 :=
  if num = 0 then ⟨0, 0⟩
  else
    let e1 : Int := (floorLog2 num : Int) - (floorLog2 den : Int) - 53
    let e : Int :=
      if num * 2 ^ (-e1).toNat / (den * 2 ^ e1.toNat) < 2 ^ 53 then e1 else e1 + 1
    ⟨(roundHalfEven (num * 2 ^ (-e).toNat) (den * 2 ^ e.toNat) : Nat), e⟩

/-- The binary64 value nearest to the signed fraction `num / den`, `den > 0`. -/
def Binary64.round (num : Int) (den : Nat) : Binary64 :=
  let r := Binary64.roundPos num.natAbs den
  ⟨if num < 0 then -r.m else r.m, r.e⟩

/-- The binary64 value nearest to `M * 2^e`. -/
def Binary64.ofScaled (M e : Int) : Binary64 :=
  Binary64.round (M * 2 ^ e.toNat) (2 ^ (-e).toNat)

/-- The binary64 value of an integer literal. -/
def Binary64.ofInt (n : Int) : Binary64 := Binary64.ofScaled n 0

/-- Binary64 subtraction: the exact difference, rounded. -/
def Binary64.sub (x y : Binary64) : Binary64 :=
  let e := min x.e y.e
  Binary64.ofScaled (x.m * 2 ^ (x.e - e).toNat - y.m * 2 ^ (y.e - e).toNat) e

/-- Binary64 addition: the exact sum, rounded. -/
def Binary64.add (x y : Binary64) : Binary64 :=
  let e := min x.e y.e
  Binary64.ofScaled (x.m * 2 ^ (x.e - e).toNat + y.m * 2 ^ (y.e - e).toNat) e

/-- Binary64 multiplication: the exact product, rounded. -/
def Binary64.mul (x y : Binary64) : Binary64 :=
  Binary64.ofScaled (x.m * y.m) (x.e + y.e)

/-- Binary64 division: the exact quotient, rounded; `none` for a zero divisor, whose
quotient is not a finite value. -/
def Binary64.div (x y : Binary64) : Option Binary64 :=
  if y.m = 0 then none
  else
    some (Binary64.round
      ((if y.m < 0 then -x.m else x.m) * 2 ^ (x.e - y.e).toNat)
      (y.m.natAbs * 2 ^ (y.e - x.e).toNat))

/-- A field of binary64 values read as `F(i,j,k)`. -/
abbrev Binary64.Array4 := Int → Int → Int → Binary64

/-- The cell sizes of the geometry as binary64 values. -/
structure Binary64.Geometry where
  /-- value returned by `geom.CellSizeArray()` -/
  CellSizeArray : GpuArray Binary64

/-- Source `UpwardDx`, every operation in binary64. -/
def Binary64.UpwardDx (F : Binary64.Array4) (i j k : Int) (geom : Binary64.Geometry) :
    Option Binary64 :=
  let dx := geom.CellSizeArray
  (Binary64.div (Binary64.ofInt 1) (dx 0)).map fun inv_dx =>
    Binary64.mul inv_dx (Binary64.sub (F (i + 1) j k) (F i j k))

/-- Source `DownwardDx`, every operation in binary64. -/
def Binary64.DownwardDx (F : Binary64.Array4) (i j k : Int) (geom : Binary64.Geometry) :
    Option Binary64 :=
  let dx := geom.CellSizeArray
  (Binary64.div (Binary64.ofInt 1) (dx 0)).map fun inv_dx =>
    Binary64.mul inv_dx (Binary64.sub (F i j k) (F (i - 1) j k))

/-- Source `LaplacianDx_Mag`, every operation in binary64; an indicator equals `0.`
exactly when its significand is zero. -/
def Binary64.LaplacianDx_Mag (F : Binary64.Array4) (Ms_lo_x Ms_hi_x : Binary64)
    (i j k : Int) (geom : Binary64.Geometry) : Option Binary64 :=
  let dx := geom.CellSizeArray
  (Binary64.div (Binary64.ofInt 1) (dx 0)).bind fun inv_dx =>
    if Ms_hi_x.m = 0 then
      (Binary64.DownwardDx F i j k geom).map fun down =>
        Binary64.mul inv_dx (Binary64.sub Binary64.zero down)
    else if Ms_lo_x.m = 0 then
      (Binary64.UpwardDx F i j k geom).map fun up =>
        Binary64.mul inv_dx (Binary64.sub up Binary64.zero)
    else
      (Binary64.UpwardDx F i j k geom).bind fun up =>
        (Binary64.DownwardDx F i j k geom).map fun down =>
          Binary64.mul inv_dx (Binary64.sub up down)

/-- The values of the masked x-Laplacian at `i = a..b` accumulated in binary64, in
increasing order of `i`, starting from zero. -/
def Binary64.stripSumDx (F : Binary64.Array4) (Ms_lo Ms_hi : Int → Binary64)
    (a b j k : Int) (geom : Binary64.Geometry) : Option Binary64 :=
  (intRange a b).foldl
    (fun acc i => acc.bind fun s =>
      (Binary64.LaplacianDx_Mag F (Ms_lo i) (Ms_hi i) i j k geom).map fun l =>
        Binary64.add s l)
    (some Binary64.zero)

/-- The values of the masked x-Laplacian at `i = a..b`, each computed in binary64,
added up without rounding. -/
def Binary64.exactStripSumDx (F : Binary64.Array4) (Ms_lo Ms_hi : Int → Binary64)
    (a b j k : Int) (geom : Binary64.Geometry) : Option ℚ :=
  (intRange a b).foldl
    (fun acc i => acc.bind fun s =>
      (Binary64.LaplacianDx_Mag F (Ms_lo i) (Ms_hi i) i j k geom).map fun l =>
        s + l.toRat)
    (some 0)

/-- The scenario field `F = [0, 1, 4, 9, 16]` along x in binary64 (zero outside
`0..4`). -/
def scenarioField64 : Binary64.Array4 := fun i _ _ =>
  if 0 ≤ i then Binary64.ofInt (([0, 1, 4, 9, 16] : List Int).getD i.toNat 0)
  else Binary64.zero

/-- Low-side indicator of the scenario in binary64: zero at index 0 only. -/
def scenarioMsLo64 (i : Int) : Binary64 :=
  if i = 0 then Binary64.zero else Binary64.ofInt 1

/-- High-side indicator of the scenario in binary64: zero at index 4 only. -/
def scenarioMsHi64 (i : Int) : Binary64 :=
  if i = 4 then Binary64.zero else Binary64.ofInt 1

/-- A geometry whose three cell sizes are the binary64 value of the literal `0.3`. -/
def fixtureGeom64 : Binary64.Geometry := { CellSizeArray := fun _ => Binary64.round 3 10 }

/-! ## Lemmas on the containers and the initializer loop -/

/-- Membership in `intRange lo hi` is the closed interval `lo ≤ x ≤ hi`. -/
theorem mem_intRange (lo hi x : Int) : x ∈ intRange lo hi ↔ lo ≤ x ∧ x ≤ hi := by
  simp only [intRange, List.mem_map, List.mem_range]
  constructor
  · rintro ⟨n, hn, rfl⟩
    omega
  · intro h
    exact ⟨(x - lo).toNat, by omega, by omega⟩

/-- The loop cells of a box are exactly the cells it contains. -/
theorem Box.mem_cells (bx : Box) (a b c : Int) :
    (a, b, c) ∈ bx.cells ↔ bx.contains a b c := by
  simp only [Box.cells, List.mem_flatMap, List.mem_map, mem_intRange, Box.contains,
    Prod.mk.injEq]
  constructor
  · rintro ⟨k, hk, j, hj, i, hi, rfl, rfl, rfl⟩
    exact ⟨hi, hj, hk⟩
  · rintro ⟨hi, hj, hk⟩
    exact ⟨c, hk, b, hj, a, hi, rfl, rfl, rfl⟩

/-- The three nested tests of the kernel amount to one test of
`centreStrictlyInside`. -/
theorem InitializeMagneticProperties.kernel_eq
    (alpha_val Ms_val gamma_val exchange_val anisotropy_val : Real)
    (prob_lo mag_lo mag_hi dx : GpuArray Real) (i j k : Int) (s : PropertyArrays) :
    InitializeMagneticProperties.kernel alpha_val Ms_val gamma_val exchange_val
        anisotropy_val prob_lo mag_lo mag_hi dx i j k s
      = if centreStrictlyInside prob_lo mag_lo mag_hi dx i j k then
          { alpha_arr := s.alpha_arr.set i j k alpha_val
            gamma_arr := s.gamma_arr.set i j k gamma_val
            Ms_arr := s.Ms_arr.set i j k Ms_val
            exchange_arr := s.exchange_arr.set i j k exchange_val
            anisotropy_arr := s.anisotropy_arr.set i j k anisotropy_val }
        else s := by
  unfold InitializeMagneticProperties.kernel centreStrictlyInside cellCentre
  simp only [gt_iff_lt]
  split_ifs <;> first | rfl | (exfalso; tauto)


/-- Running the kernel over a list of cells: the value at `(a,b,c)` is the material
value when the cell is in the list with its centre strictly inside, and the initial
value otherwise. -/
theorem InitializeMagneticProperties.foldl_kernel
    (alpha_val Ms_val gamma_val exchange_val anisotropy_val : Real)
    (prob_lo mag_lo mag_hi dx : GpuArray Real) (a b c : Int)
    (L : List (Int × Int × Int)) (s : PropertyArrays) :
    let out := L.foldl (fun t q => InitializeMagneticProperties.kernel alpha_val Ms_val
      gamma_val exchange_val anisotropy_val prob_lo mag_lo mag_hi dx q.1 q.2.1 q.2.2 t) s
    let hit := (a, b, c) ∈ L ∧ centreStrictlyInside prob_lo mag_lo mag_hi dx a b c
    out.alpha_arr a b c = (if hit then alpha_val else s.alpha_arr a b c) ∧
    out.gamma_arr a b c = (if hit then gamma_val else s.gamma_arr a b c) ∧
    out.Ms_arr a b c = (if hit then Ms_val else s.Ms_arr a b c) ∧
    out.exchange_arr a b c = (if hit then exchange_val else s.exchange_arr a b c) ∧
    out.anisotropy_arr a b c = (if hit then anisotropy_val else s.anisotropy_arr a b c) := by
  induction L generalizing s with
  | nil => simp
  | cons q rest ih =>
    obtain ⟨i, j, k⟩ := q
    simp only [List.foldl_cons, List.mem_cons, Prod.mk.injEq]
    have h := ih (InitializeMagneticProperties.kernel alpha_val Ms_val gamma_val
      exchange_val anisotropy_val prob_lo mag_lo mag_hi dx i j k s)
    simp only at h
    obtain ⟨h1, h2, h3, h4, h5⟩ := h
    rw [h1, h2, h3, h4, h5, InitializeMagneticProperties.kernel_eq]
    by_cases hr : (a, b, c) ∈ rest ∧ centreStrictlyInside prob_lo mag_lo mag_hi dx a b c
    · have hl : ((a = i ∧ b = j ∧ c = k) ∨ (a, b, c) ∈ rest) ∧
          centreStrictlyInside prob_lo mag_lo mag_hi dx a b c := ⟨Or.inr hr.1, hr.2⟩
      simp only [if_pos hr, if_pos hl, and_self]
    · simp only [if_neg hr]
      by_cases hq : a = i ∧ b = j ∧ c = k
      · obtain ⟨rfl, rfl, rfl⟩ := hq
        by_cases hin : centreStrictlyInside prob_lo mag_lo mag_hi dx a b c
        · simp [hin, Array4.set]
        · simp [hin]
      · have hl : ¬ (((a = i ∧ b = j ∧ c = k) ∨ (a, b, c) ∈ rest) ∧
            centreStrictlyInside prob_lo mag_lo mag_hi dx a b c) := by
          rintro ⟨h | h, hin⟩
          · exact hq h
          · exact hr ⟨h, hin⟩
        simp only [if_neg hl]
        split_ifs <;> simp [Array4.set, hq]

/-- The kernel dispatched over a box: the value at `(a,b,c)` is the material value
when the box contains the cell and its centre is strictly inside, and the initial
value otherwise. -/
theorem InitializeMagneticProperties.ParallelFor_kernel
    (alpha_val Ms_val gamma_val exchange_val anisotropy_val : Real)
    (prob_lo mag_lo mag_hi dx : GpuArray Real) (bx : Box) (a b c : Int)
    (s : PropertyArrays) :
    let out := ParallelFor bx (InitializeMagneticProperties.kernel alpha_val Ms_val
      gamma_val exchange_val anisotropy_val prob_lo mag_lo mag_hi dx) s
    let hit := bx.contains a b c ∧ centreStrictlyInside prob_lo mag_lo mag_hi dx a b c
    out.alpha_arr a b c = (if hit then alpha_val else s.alpha_arr a b c) ∧
    out.gamma_arr a b c = (if hit then gamma_val else s.gamma_arr a b c) ∧
    out.Ms_arr a b c = (if hit then Ms_val else s.Ms_arr a b c) ∧
    out.exchange_arr a b c = (if hit then exchange_val else s.exchange_arr a b c) ∧
    out.anisotropy_arr a b c = (if hit then anisotropy_val else s.anisotropy_arr a b c) := by
  have h := InitializeMagneticProperties.foldl_kernel alpha_val Ms_val gamma_val
    exchange_val anisotropy_val prob_lo mag_lo mag_hi dx a b c bx.cells s
  simp only [Box.mem_cells] at h
  exact h


section InitializerLemmas

variable (alpha_val Ms_val gamma_val exchange_val anisotropy_val : Real)
  (prob_lo mag_lo mag_hi : GpuArray Real) (geom : Geometry)

/-- The loop body for sub-region `n` leaves the data of every other sub-region
untouched. -/
theorem InitializeMagneticProperties.loopBody_array_ne (n m : Nat) (bx : Box)
    (s : MagneticProperties) (hm : m ≠ n) :
    let t := InitializeMagneticProperties.loopBody alpha_val Ms_val gamma_val
      exchange_val anisotropy_val prob_lo mag_lo mag_hi geom n bx s
    t.alpha.array m = s.alpha.array m ∧ t.Ms.array m = s.Ms.array m ∧
    t.gamma.array m = s.gamma.array m ∧ t.exchange.array m = s.exchange.array m ∧
    t.anisotropy.array m = s.anisotropy.array m := by
  simp [InitializeMagneticProperties.loopBody, MultiFab.setArray, hm]

/-- The loop body for sub-region `n` writes the material values on the cells of
`bx` whose centre is strictly inside, and nothing else. -/
theorem InitializeMagneticProperties.loopBody_array_self (n : Nat) (bx : Box)
    (s : MagneticProperties) (a b c : Int) :
    let t := InitializeMagneticProperties.loopBody alpha_val Ms_val gamma_val
      exchange_val anisotropy_val prob_lo mag_lo mag_hi geom n bx s
    let hit := bx.contains a b c ∧
      centreStrictlyInside prob_lo mag_lo mag_hi geom.CellSizeArray a b c
    t.alpha.array n a b c = (if hit then alpha_val else s.alpha.array n a b c) ∧
    t.Ms.array n a b c = (if hit then Ms_val else s.Ms.array n a b c) ∧
    t.gamma.array n a b c = (if hit then gamma_val else s.gamma.array n a b c) ∧
    t.exchange.array n a b c = (if hit then exchange_val else s.exchange.array n a b c) ∧
    t.anisotropy.array n a b c
      = (if hit then anisotropy_val else s.anisotropy.array n a b c) := by
  obtain ⟨h1, h2, h3, h4, h5⟩ := InitializeMagneticProperties.ParallelFor_kernel alpha_val
    Ms_val gamma_val exchange_val anisotropy_val prob_lo mag_lo mag_hi geom.CellSizeArray
    bx a b c
    { alpha_arr := s.alpha.array n
      gamma_arr := s.gamma.array n
      Ms_arr := s.Ms.array n
      exchange_arr := s.exchange.array n
      anisotropy_arr := s.anisotropy.array n }
  simp only [InitializeMagneticProperties.loopBody, MultiFab.setArray, if_true]
  exact ⟨h1, h3, h2, h4, h5⟩

/-- The `MFIter` loop keeps the box layout of the five fields. -/
theorem InitializeMagneticProperties.forEach_boxArray (bs : List Box) (n : Nat)
    (s : MagneticProperties) :
    let t := MFIter.forEach (InitializeMagneticProperties.loopBody alpha_val Ms_val
      gamma_val exchange_val anisotropy_val prob_lo mag_lo mag_hi geom) bs n s
    t.alpha.boxArray = s.alpha.boxArray ∧ t.Ms.boxArray = s.Ms.boxArray ∧
    t.gamma.boxArray = s.gamma.boxArray ∧ t.exchange.boxArray = s.exchange.boxArray ∧
    t.anisotropy.boxArray = s.anisotropy.boxArray := by
  induction bs generalizing n s with
  | nil => simp [MFIter.forEach]
  | cons bx rest ih =>
    simp only [MFIter.forEach]
    obtain ⟨h1, h2, h3, h4, h5⟩ := ih (n + 1) (InitializeMagneticProperties.loopBody
      alpha_val Ms_val gamma_val exchange_val anisotropy_val prob_lo mag_lo mag_hi geom
      n bx s)
    rw [h1, h2, h3, h4, h5]
    simp [InitializeMagneticProperties.loopBody, MultiFab.setArray]

/-- The `MFIter` loop started at index `n` leaves sub-regions below `n` untouched. -/
theorem InitializeMagneticProperties.forEach_array_lt (bs : List Box) (n m : Nat)
    (s : MagneticProperties) (hm : m < n) :
    let t := MFIter.forEach (InitializeMagneticProperties.loopBody alpha_val Ms_val
      gamma_val exchange_val anisotropy_val prob_lo mag_lo mag_hi geom) bs n s
    t.alpha.array m = s.alpha.array m ∧ t.Ms.array m = s.Ms.array m ∧
    t.gamma.array m = s.gamma.array m ∧ t.exchange.array m = s.exchange.array m ∧
    t.anisotropy.array m = s.anisotropy.array m := by
  induction bs generalizing n s with
  | nil => simp [MFIter.forEach]
  | cons bx rest ih =>
    simp only [MFIter.forEach]
    obtain ⟨h1, h2, h3, h4, h5⟩ := ih (n + 1) (InitializeMagneticProperties.loopBody
      alpha_val Ms_val gamma_val exchange_val anisotropy_val prob_lo mag_lo mag_hi geom
      n bx s) (by omega)
    rw [h1, h2, h3, h4, h5]
    exact InitializeMagneticProperties.loopBody_array_ne alpha_val Ms_val gamma_val
      exchange_val anisotropy_val prob_lo mag_lo mag_hi geom n m bx s (by omega)

/-- The `MFIter` loop started at index `n`: the data of sub-region `n + idx`, whose
valid box is `bx`, holds the material values on the cells of `bx` whose centre is
strictly inside and the initial values elsewhere. -/
theorem InitializeMagneticProperties.forEach_array_at (bs : List Box) (n idx : Nat)
    (s : MagneticProperties) (bx : Box) (hbx : bs[idx]? = some bx) (a b c : Int) :
    let t := MFIter.forEach (InitializeMagneticProperties.loopBody alpha_val Ms_val
      gamma_val exchange_val anisotropy_val prob_lo mag_lo mag_hi geom) bs n s
    let hit := bx.contains a b c ∧
      centreStrictlyInside prob_lo mag_lo mag_hi geom.CellSizeArray a b c
    t.alpha.array (n + idx) a b c
      = (if hit then alpha_val else s.alpha.array (n + idx) a b c) ∧
    t.Ms.array (n + idx) a b c = (if hit then Ms_val else s.Ms.array (n + idx) a b c) ∧
    t.gamma.array (n + idx) a b c
      = (if hit then gamma_val else s.gamma.array (n + idx) a b c) ∧
    t.exchange.array (n + idx) a b c
      = (if hit then exchange_val else s.exchange.array (n + idx) a b c) ∧
    t.anisotropy.array (n + idx) a b c
      = (if hit then anisotropy_val else s.anisotropy.array (n + idx) a b c) := by
  induction bs generalizing n idx s with
  | nil => simp at hbx
  | cons b0 rest ih =>
    simp only [MFIter.forEach]
    cases idx with
    | zero =>
      simp only [List.getElem?_cons_zero, Option.some.injEq] at hbx
      subst hbx
      obtain ⟨h1, h2, h3, h4, h5⟩ := InitializeMagneticProperties.forEach_array_lt
        alpha_val Ms_val gamma_val exchange_val anisotropy_val prob_lo mag_lo mag_hi geom
        rest (n + 1) n (InitializeMagneticProperties.loopBody alpha_val Ms_val gamma_val
          exchange_val anisotropy_val prob_lo mag_lo mag_hi geom n b0 s) (by omega)
      simp only [Nat.add_zero]
      rw [h1, h2, h3, h4, h5]
      exact InitializeMagneticProperties.loopBody_array_self alpha_val Ms_val gamma_val
        exchange_val anisotropy_val prob_lo mag_lo mag_hi geom n b0 s a b c
    | succ i =>
      simp only [List.getElem?_cons_succ] at hbx
      have h := ih (n + 1) i (InitializeMagneticProperties.loopBody alpha_val Ms_val
        gamma_val exchange_val anisotropy_val prob_lo mag_lo mag_hi geom n b0 s) hbx
      have e : n + (i + 1) = n + 1 + i := by omega
      obtain ⟨g1, g2, g3, g4, g5⟩ := InitializeMagneticProperties.loopBody_array_ne
        alpha_val Ms_val gamma_val exchange_val anisotropy_val prob_lo mag_lo mag_hi geom
        n (n + 1 + i) b0 s (by omega)
      simp only at h g1 g2 g3 g4 g5
      rw [e]
      rw [g1, g2, g3, g4, g5] at h
      exact h

end InitializerLemmas

/-- `FillBoundary` leaves every valid cell unchanged. -/
theorem MultiFab.FillBoundary_valid (mf : MultiFab) (p : Periodicity) (n : Nat)
    (vb : Box) (hvb : mf.boxArray[n]? = some vb) (i j k : Int)
    (hc : vb.contains i j k) :
    (mf.FillBoundary p).array n i j k = mf.array n i j k := by
  simp only [MultiFab.FillBoundary, hvb, if_pos hc]

/-- The `MFIter` loop keeps the ghost width of the five fields. -/
theorem InitializeMagneticProperties.forEach_nGrow
    (alpha_val Ms_val gamma_val exchange_val anisotropy_val : Real)
    (prob_lo mag_lo mag_hi : GpuArray Real) (geom : Geometry) (bs : List Box) (n : Nat)
    (s : MagneticProperties) :
    let t := MFIter.forEach (InitializeMagneticProperties.loopBody alpha_val Ms_val
      gamma_val exchange_val anisotropy_val prob_lo mag_lo mag_hi geom) bs n s
    t.alpha.nGrow = s.alpha.nGrow ∧ t.Ms.nGrow = s.Ms.nGrow ∧
    t.gamma.nGrow = s.gamma.nGrow ∧ t.exchange.nGrow = s.exchange.nGrow ∧
    t.anisotropy.nGrow = s.anisotropy.nGrow := by
  induction bs generalizing n s with
  | nil => simp [MFIter.forEach]
  | cons bx rest ih =>
    simp only [MFIter.forEach]
    obtain ⟨h1, h2, h3, h4, h5⟩ := ih (n + 1) (InitializeMagneticProperties.loopBody
      alpha_val Ms_val gamma_val exchange_val anisotropy_val prob_lo mag_lo mag_hi geom
      n bx s)
    rw [h1, h2, h3, h4, h5]
    simp [InitializeMagneticProperties.loopBody, MultiFab.setArray]

/-- The initializer keeps the box layout and the ghost width of the five fields. -/
theorem InitializeMagneticProperties.layout
    (alpha Ms gamma exchange anisotropy : MultiFab)
    (alpha_val Ms_val gamma_val exchange_val anisotropy_val : Real)
    (prob_lo prob_hi mag_lo mag_hi : GpuArray Real) (geom : Geometry) :
    let r := InitializeMagneticProperties alpha Ms gamma exchange anisotropy alpha_val
      Ms_val gamma_val exchange_val anisotropy_val prob_lo prob_hi mag_lo mag_hi geom
    (r.alpha.boxArray = alpha.boxArray ∧ r.Ms.boxArray = Ms.boxArray ∧
      r.gamma.boxArray = gamma.boxArray ∧ r.exchange.boxArray = exchange.boxArray ∧
      r.anisotropy.boxArray = anisotropy.boxArray) ∧
    (r.alpha.nGrow = alpha.nGrow ∧ r.Ms.nGrow = Ms.nGrow ∧
      r.gamma.nGrow = gamma.nGrow ∧ r.exchange.nGrow = exchange.nGrow ∧
      r.anisotropy.nGrow = anisotropy.nGrow) := by
  intro r
  exact ⟨InitializeMagneticProperties.forEach_boxArray alpha_val Ms_val gamma_val
      exchange_val anisotropy_val prob_lo mag_lo mag_hi geom alpha.boxArray 0
      { alpha := alpha.setVal 0, Ms := Ms.setVal 0, gamma := gamma.setVal 0,
        exchange := exchange.setVal 0, anisotropy := anisotropy.setVal 0 },
    InitializeMagneticProperties.forEach_nGrow alpha_val Ms_val gamma_val
      exchange_val anisotropy_val prob_lo mag_lo mag_hi geom alpha.boxArray 0
      { alpha := alpha.setVal 0, Ms := Ms.setVal 0, gamma := gamma.setVal 0,
        exchange := exchange.setVal 0, anisotropy := anisotropy.setVal 0 }⟩

/-- The values the initializer leaves at an owned cell: the material value when the
cell centre is strictly inside the region, `0` otherwise. -/
theorem InitializeMagneticProperties.owned_cell
    (alpha Ms gamma exchange anisotropy : MultiFab)
    (alpha_val Ms_val gamma_val exchange_val anisotropy_val : Real)
    (prob_lo prob_hi mag_lo mag_hi : GpuArray Real) (geom : Geometry)
    (hMs : Ms.boxArray = alpha.boxArray) (hgamma : gamma.boxArray = alpha.boxArray)
    (hexchange : exchange.boxArray = alpha.boxArray)
    (hanisotropy : anisotropy.boxArray = alpha.boxArray)
    (n : Nat) (bx : Box) (hbx : alpha.boxArray[n]? = some bx)
    (i j k : Int) (hcell : bx.contains i j k) :
    let r := InitializeMagneticProperties alpha Ms gamma exchange anisotropy alpha_val
      Ms_val gamma_val exchange_val anisotropy_val prob_lo prob_hi mag_lo mag_hi geom
    let inside := centreStrictlyInside prob_lo mag_lo mag_hi geom.CellSizeArray i j k
    r.alpha.array n i j k = (if inside then alpha_val else 0) ∧
    r.Ms.array n i j k = (if inside then Ms_val else 0) ∧
    r.gamma.array n i j k = (if inside then gamma_val else 0) ∧
    r.exchange.array n i j k = (if inside then exchange_val else 0) ∧
    r.anisotropy.array n i j k = (if inside then anisotropy_val else 0) := by
  intro r inside
  obtain ⟨b1, b2, b3, b4, b5⟩ := InitializeMagneticProperties.forEach_boxArray alpha_val
    Ms_val gamma_val exchange_val anisotropy_val prob_lo mag_lo mag_hi geom
    alpha.boxArray 0
    { alpha := alpha.setVal 0, Ms := Ms.setVal 0, gamma := gamma.setVal 0,
      exchange := exchange.setVal 0, anisotropy := anisotropy.setVal 0 }
  obtain ⟨w1, w2, w3, w4, w5⟩ := InitializeMagneticProperties.forEach_array_at alpha_val
    Ms_val gamma_val exchange_val anisotropy_val prob_lo mag_lo mag_hi geom
    alpha.boxArray 0 n
    { alpha := alpha.setVal 0, Ms := Ms.setVal 0, gamma := gamma.setVal 0,
      exchange := exchange.setVal 0, anisotropy := anisotropy.setVal 0 } bx hbx i j k
  simp only [Nat.zero_add] at w1 w2 w3 w4 w5
  have f1 : r.alpha.array n i j k = _ :=
    MultiFab.FillBoundary_valid _ geom.periodicity n bx (by rw [b1]; exact hbx) i j k hcell
  have f2 : r.Ms.array n i j k = _ :=
    MultiFab.FillBoundary_valid _ geom.periodicity n bx (by rw [b2.trans hMs]; exact hbx)
      i j k hcell
  have f3 : r.gamma.array n i j k = _ :=
    MultiFab.FillBoundary_valid _ geom.periodicity n bx (by rw [b3.trans hgamma]; exact hbx)
      i j k hcell
  have f4 : r.exchange.array n i j k = _ :=
    MultiFab.FillBoundary_valid _ geom.periodicity n bx (by rw [b4.trans hexchange]; exact hbx)
      i j k hcell
  have f5 : r.anisotropy.array n i j k = _ :=
    MultiFab.FillBoundary_valid _ geom.periodicity n bx
      (by rw [b5.trans hanisotropy]; exact hbx) i j k hcell
  rw [f1, f2, f3, f4, f5, w1, w2, w3, w4, w5]
  simp only [MultiFab.setVal, hcell, true_and, inside, and_self]

/-- The initializer reads the layout of its fields only: two runs on fields with the
same boxes and ghost width give the same five fields, whatever the fields held. -/
theorem InitializeMagneticProperties.congr_layout
    (alpha Ms gamma exchange anisotropy : MultiFab)
    (alpha2 Ms2 gamma2 exchange2 anisotropy2 : MultiFab)
    (alpha_val Ms_val gamma_val exchange_val anisotropy_val : Real)
    (prob_lo prob_hi mag_lo mag_hi : GpuArray Real) (geom : Geometry)
    (h1 : alpha2.boxArray = alpha.boxArray ∧ alpha2.nGrow = alpha.nGrow)
    (h2 : Ms2.boxArray = Ms.boxArray ∧ Ms2.nGrow = Ms.nGrow)
    (h3 : gamma2.boxArray = gamma.boxArray ∧ gamma2.nGrow = gamma.nGrow)
    (h4 : exchange2.boxArray = exchange.boxArray ∧ exchange2.nGrow = exchange.nGrow)
    (h5 : anisotropy2.boxArray = anisotropy.boxArray ∧
      anisotropy2.nGrow = anisotropy.nGrow) :
    InitializeMagneticProperties alpha2 Ms2 gamma2 exchange2 anisotropy2 alpha_val Ms_val
        gamma_val exchange_val anisotropy_val prob_lo prob_hi mag_lo mag_hi geom
      = InitializeMagneticProperties alpha Ms gamma exchange anisotropy alpha_val Ms_val
        gamma_val exchange_val anisotropy_val prob_lo prob_hi mag_lo mag_hi geom := by
  have e1 : alpha2.setVal 0 = alpha.setVal 0 := by simp [MultiFab.setVal, h1.1, h1.2]
  have e2 : Ms2.setVal 0 = Ms.setVal 0 := by simp [MultiFab.setVal, h2.1, h2.2]
  have e3 : gamma2.setVal 0 = gamma.setVal 0 := by simp [MultiFab.setVal, h3.1, h3.2]
  have e4 : exchange2.setVal 0 = exchange.setVal 0 := by
    simp [MultiFab.setVal, h4.1, h4.2]
  have e5 : anisotropy2.setVal 0 = anisotropy.setVal 0 := by
    simp [MultiFab.setVal, h5.1, h5.2]
  simp only [InitializeMagneticProperties, e1, e2, e3, e4, e5, h1.1]

/-! ## Lemmas on sums along a strip -/

/-- Telescoping: the differences `U i - U (i-1)` over `a < i < a+n+1` add up to
`U (a+n) - U a`. -/
theorem sum_Ioo_telescope (U : Int → Real) (a : Int) (n : Nat) :
    Finset.sum (Finset.Ioo a (a + n + 1)) (fun i => U i - U (i - 1)) = U (a + n) - U a := by
  induction n with
  | zero =>
    have h : Finset.Ioo a (a + ((0 : Nat) : Int) + 1) = ∅ := by
      ext x
      simp only [Finset.mem_Ioo, Finset.not_mem_empty, iff_false]
      omega
    rw [h]
    simp
  | succ m ih =>
    have h : Finset.Ioo a (a + ((m + 1 : Nat) : Int) + 1)
        = insert (a + m + 1) (Finset.Ioo a (a + m + 1)) := by
      ext x
      simp only [Finset.mem_Ioo, Finset.mem_insert]
      omega
    have hnot : a + (m : Int) + 1 ∉ Finset.Ioo a (a + m + 1) := by
      simp only [Finset.mem_Ioo]
      omega
    rw [h, Finset.sum_insert hnot, ih]
    have e1 : a + (m : Int) + 1 - 1 = a + m := by ring
    have e2 : a + ((m + 1 : Nat) : Int) = a + m + 1 := by push_cast; ring
    rw [e1, e2]
    ring

/-- Zero-flux conservation in the abstract: a summand equal to the forward flux at
`a`, the flux difference strictly between `a` and `b`, and minus the backward flux
at `b`, adds up to zero over `a..b`. -/
theorem sum_Icc_zero_flux (U L : Int → Real) (c : Real) (a b : Int) (hab : a < b)
    (ha : L a = c * (c * U a - 0)) (hb : L b = c * (0 - c * U (b - 1)))
    (hin : ∀ i, a < i → i < b → L i = c * (c * U i - c * U (i - 1))) :
    Finset.sum (Finset.Icc a b) L = 0 := by
  have hmid : Finset.sum (Finset.Ioo a b) L
      = c * c * Finset.sum (Finset.Ioo a b) (fun i => U i - U (i - 1)) := by
    rw [Finset.mul_sum]
    refine Finset.sum_congr rfl fun i hi => ?_
    obtain ⟨h1, h2⟩ := Finset.mem_Ioo.1 hi
    rw [hin i h1 h2]
    ring
  have hb_eq : b = a + ((b - a - 1).toNat : Int) + 1 := by omega
  have htel := sum_Ioo_telescope U a (b - a - 1).toNat
  rw [← hb_eq] at htel
  have hlast : a + ((b - a - 1).toNat : Int) = b - 1 := by omega
  rw [hlast] at htel
  rw [← Finset.Ioc_insert_left (le_of_lt hab), Finset.sum_insert (by simp),
    ← Finset.Ioo_insert_right hab, Finset.sum_insert (by simp), hmid, htel, ha, hb]
  ring

/-! ## Lemmas on the `SetPhiBC_z` loop -/

/-- Running the `SetPhiBC_z` kernel over a list of cells: a listed cell below the
domain in z holds `Phi_Bc_lo`, a listed cell at or above `n_cell[2]` (and not below
zero) holds `Phi_Bc_hi`, every other cell keeps its value. -/
theorem SetPhiBC_z.foldl_phi_kernel (n_cell : GpuArray Int) (Phi_Bc_lo Phi_Bc_hi : Real)
    (a b c : Int) (L : List (Int × Int × Int)) (Phi : Array4) :
    (L.foldl (fun t q => SetPhiBC_z.kernel n_cell Phi_Bc_lo Phi_Bc_hi q.1 q.2.1 q.2.2 t)
        Phi) a b c
      = if (a, b, c) ∈ L then
          (if c < 0 then Phi_Bc_lo else if c ≥ n_cell 2 then Phi_Bc_hi else Phi a b c)
        else Phi a b c := by
  induction L generalizing Phi with
  | nil => simp
  | cons q rest ih =>
    obtain ⟨i, j, k⟩ := q
    simp only [List.foldl_cons, List.mem_cons, Prod.mk.injEq]
    rw [ih]
    by_cases hq : a = i ∧ b = j ∧ c = k
    · obtain ⟨rfl, rfl, rfl⟩ := hq
      by_cases hr : (a, b, c) ∈ rest
      · simp only [hr, or_true, if_true]
        by_cases h1 : c < 0
        · simp only [if_pos h1]
        · simp only [if_neg h1]
          by_cases h2 : c ≥ n_cell 2
          · simp only [if_pos h2]
          · simp only [if_neg h2, SetPhiBC_z.kernel, if_neg h1]
      · simp only [hr, if_false, and_self, true_or, if_true, SetPhiBC_z.kernel]
        by_cases h1 : c < 0
        · simp [if_pos h1, Array4.set]
        · simp only [if_neg h1]
          by_cases h2 : c ≥ n_cell 2
          · simp [if_pos h2, Array4.set]
          · simp only [if_neg h2]
    · have hk : SetPhiBC_z.kernel n_cell Phi_Bc_lo Phi_Bc_hi i j k Phi a b c = Phi a b c := by
        simp only [SetPhiBC_z.kernel]
        split_ifs <;> simp [Array4.set, hq]
      simp only [hq, false_or, hk]

/-- The loop body for sub-region `n` leaves the data of every other sub-region and
the layout untouched. -/
theorem SetPhiBC_z.loopBody_frame (n_cell : GpuArray Int) (Phi_Bc_lo Phi_Bc_hi : Real)
    (n m : Nat) (vbx : Box) (s : MultiFab) (hm : m ≠ n) :
    (SetPhiBC_z.loopBody n_cell Phi_Bc_lo Phi_Bc_hi n vbx s).array m = s.array m := by
  simp [SetPhiBC_z.loopBody, MultiFab.setArray, hm]

/-- The `MFIter` loop of `SetPhiBC_z` started at index `n` leaves sub-regions below
`n` untouched. -/
theorem SetPhiBC_z.forEach_phi_lt (n_cell : GpuArray Int) (Phi_Bc_lo Phi_Bc_hi : Real)
    (bs : List Box) (n m : Nat) (s : MultiFab) (hm : m < n) :
    (MFIter.forEach (SetPhiBC_z.loopBody n_cell Phi_Bc_lo Phi_Bc_hi) bs n s).array m
      = s.array m := by
  induction bs generalizing n s with
  | nil => simp [MFIter.forEach]
  | cons bx rest ih =>
    simp only [MFIter.forEach]
    rw [ih (n + 1) _ (by omega)]
    exact SetPhiBC_z.loopBody_frame n_cell Phi_Bc_lo Phi_Bc_hi n m bx s (by omega)

/-- The `MFIter` loop of `SetPhiBC_z` started at index `n`: the data of sub-region
`n + idx`, whose valid box is `vbx`, is the kernel dispatched over the grown box. -/
theorem SetPhiBC_z.forEach_phi_at (n_cell : GpuArray Int) (Phi_Bc_lo Phi_Bc_hi : Real)
    (bs : List Box) (n idx : Nat) (s : MultiFab) (vbx : Box) (hbx : bs[idx]? = some vbx) :
    (MFIter.forEach (SetPhiBC_z.loopBody n_cell Phi_Bc_lo Phi_Bc_hi) bs n s).array (n + idx)
      = ParallelFor (MFIter.growntilebox vbx 1)
          (SetPhiBC_z.kernel n_cell Phi_Bc_lo Phi_Bc_hi) (s.array (n + idx)) := by
  induction bs generalizing n idx s with
  | nil => simp at hbx
  | cons b0 rest ih =>
    simp only [MFIter.forEach]
    cases idx with
    | zero =>
      simp only [List.getElem?_cons_zero, Option.some.injEq] at hbx
      subst hbx
      simp only [Nat.add_zero]
      rw [SetPhiBC_z.forEach_phi_lt n_cell Phi_Bc_lo Phi_Bc_hi rest (n + 1) n _ (by omega)]
      simp [SetPhiBC_z.loopBody, MultiFab.setArray]
    | succ m =>
      simp only [List.getElem?_cons_succ] at hbx
      have e : n + (m + 1) = n + 1 + m := by omega
      rw [e, ih (n + 1) m _ hbx,
        SetPhiBC_z.loopBody_frame n_cell Phi_Bc_lo Phi_Bc_hi n (n + 1 + m) b0 s (by omega)]

/-! ## Lemmas on the material block -/

/-- For a positive spacing, the cell centre along axis `d` lies strictly between the
region bounds exactly when the index lies in `materialLo .. materialHi`. -/
theorem cellCentre_inside_iff (prob_lo mag_lo mag_hi dx : GpuArray Real) (d : Fin 3)
    (hdx : 0 < dx d) (n : Int) :
    (mag_lo d < cellCentre prob_lo dx d n ∧ cellCentre prob_lo dx d n < mag_hi d)
      ↔ (materialLo prob_lo mag_lo dx d ≤ n ∧ n ≤ materialHi prob_lo mag_hi dx d) := by
  have half : (0.5 : Real) = 1 / 2 := by norm_num
  have hlo : mag_lo d < cellCentre prob_lo dx d n
      ↔ (mag_lo d - prob_lo d) / dx d - 1 / 2 < (n : Real) := by
    rw [cellCentre, half, sub_lt_iff_lt_add, div_lt_iff₀ hdx]
    constructor <;> intro h <;> linarith
  have hhi : cellCentre prob_lo dx d n < mag_hi d
      ↔ (n : Real) < (mag_hi d - prob_lo d) / dx d - 1 / 2 := by
    rw [cellCentre, half, lt_sub_iff_add_lt, lt_div_iff₀ hdx]
    constructor <;> intro h <;> linarith
  rw [hlo, hhi, materialLo, materialHi, Int.add_one_le_iff, Int.le_sub_one_iff,
    Int.floor_lt, Int.lt_ceil]

/-- For positive spacings, the centre of a cell is strictly inside the region
exactly when each index lies in the interval of its own axis. -/
theorem centreStrictlyInside_iff_block (prob_lo mag_lo mag_hi dx : GpuArray Real)
    (hdx : ∀ d, 0 < dx d) (i j k : Int) :
    centreStrictlyInside prob_lo mag_lo mag_hi dx i j k
      ↔ (materialLo prob_lo mag_lo dx 0 ≤ i ∧ i ≤ materialHi prob_lo mag_hi dx 0) ∧
        (materialLo prob_lo mag_lo dx 1 ≤ j ∧ j ≤ materialHi prob_lo mag_hi dx 1) ∧
        (materialLo prob_lo mag_lo dx 2 ≤ k ∧ k ≤ materialHi prob_lo mag_hi dx 2) := by
  rw [centreStrictlyInside, cellCentre_inside_iff prob_lo mag_lo mag_hi dx 0 (hdx 0),
    cellCentre_inside_iff prob_lo mag_lo mag_hi dx 1 (hdx 1),
    cellCentre_inside_iff prob_lo mag_lo mag_hi dx 2 (hdx 2)]

/-- For a nonzero `Ms_val`, an owned cell holds a nonzero `Ms` after the initializer
exactly when its centre is strictly inside the region. -/
theorem InitializeMagneticProperties.Ms_ne_zero_iff
    (alpha Ms gamma exchange anisotropy : MultiFab)
    (alpha_val Ms_val gamma_val exchange_val anisotropy_val : Real)
    (prob_lo prob_hi mag_lo mag_hi : GpuArray Real) (geom : Geometry)
    (hMs : Ms.boxArray = alpha.boxArray) (hgamma : gamma.boxArray = alpha.boxArray)
    (hexchange : exchange.boxArray = alpha.boxArray)
    (hanisotropy : anisotropy.boxArray = alpha.boxArray) (hval : Ms_val ≠ 0)
    (n : Nat) (bx : Box) (hbx : alpha.boxArray[n]? = some bx)
    (i j k : Int) (hcell : bx.contains i j k) :
    (InitializeMagneticProperties alpha Ms gamma exchange anisotropy alpha_val Ms_val
      gamma_val exchange_val anisotropy_val prob_lo prob_hi mag_lo mag_hi
      geom).Ms.array n i j k ≠ 0
      ↔ centreStrictlyInside prob_lo mag_lo mag_hi geom.CellSizeArray i j k := by
  have h := (InitializeMagneticProperties.owned_cell alpha Ms gamma exchange anisotropy
    alpha_val Ms_val gamma_val exchange_val anisotropy_val prob_lo prob_hi mag_lo mag_hi
    geom hMs hgamma hexchange hanisotropy n bx hbx i j k hcell).2.1
  rw [h]
  by_cases hin : centreStrictlyInside prob_lo mag_lo mag_hi geom.CellSizeArray i j k
  · simp [hin, hval]
  · simp [hin]

/-- Ownership by sub-region `n` unfolds to a valid box of index `n` containing the
cell. -/
theorem MultiFab.ownsAt_iff (mf : MultiFab) (n : Nat) (i j k : Int) :
    mf.ownsAt n i j k ↔ ∃ bx, mf.boxArray[n]? = some bx ∧ bx.contains i j k := by
  unfold MultiFab.ownsAt
  cases h : mf.boxArray[n]? with
  | none => simp
  | some bx => simp

/-! ## Lemmas on ghost cells -/

/-- The zero shift is looked up first. -/
theorem Periodicity.shiftIntVect_head (p : Periodicity) :
    ∃ tl, p.shiftIntVect = (0, 0, 0) :: tl := by
  simp [Periodicity.shiftIntVect]

/-- If a cell is owned by some sub-region and every sub-region owning it holds the
value `V` there, the first value offered for the cell is `V`. -/
theorem MultiFab.ghostSources_head (mf : MultiFab) (p : Periodicity) (a b c : Int)
    (V : Real) (hown : mf.ownsCell a b c)
    (hV : ∀ (m : Nat) (bx : Box), mf.boxArray[m]? = some bx → bx.contains a b c →
      mf.array m a b c = V) :
    (mf.ghostSources p a b c).head? = some V := by
  obtain ⟨tl, htl⟩ := Periodicity.shiftIntVect_head p
  obtain ⟨bx, hmem, hcell⟩ := hown
  obtain ⟨idx, hidx⟩ := List.mem_iff_getElem?.1 hmem
  have hne : ∀ L : List Real, (∀ v ∈ L, v = V) → L ≠ [] → L.head? = some V := by
    intro L hall hnil
    cases L with
    | nil => exact absurd rfl hnil
    | cons v rest => simp [hall v (List.mem_cons_self v rest)]
  simp only [MultiFab.ghostSources, htl, List.flatMap_cons, add_zero, List.head?_append]
  have hfirst : (List.filterMap (fun nb : Nat × Box =>
      if nb.2.contains a b c then some (mf.array nb.1 a b c) else none)
      mf.boxArray.enum).head? = some V := by
    apply hne
    · intro v hv
      obtain ⟨nb, hnb, hsome⟩ := List.mem_filterMap.1 hv
      have hget := List.mem_enum_iff_getElem?.1 hnb
      by_cases hc : nb.2.contains a b c
      · rw [if_pos hc] at hsome
        rw [← Option.some.inj hsome]
        exact hV nb.1 nb.2 hget hc
      · rw [if_neg hc] at hsome
        exact absurd hsome (by simp)
    · intro hnil
      have hin : mf.array idx a b c ∈ List.filterMap (fun nb : Nat × Box =>
          if nb.2.contains a b c then some (mf.array nb.1 a b c) else none)
          mf.boxArray.enum :=
        List.mem_filterMap.2 ⟨(idx, bx), List.mk_mem_enum_iff_getElem?.2 hidx, by
          simp only [if_pos hcell]⟩
      rw [hnil] at hin
      exact absurd hin (List.not_mem_nil _)
  rw [hfirst]
  rfl

/-- The value of `Ms` that sub-region `n` sees after the initializer at a cell of
its grown box, valid or ghost, that some sub-region owns: `Ms_val` when the cell
centre is strictly inside the region, `0` otherwise. -/
theorem InitializeMagneticProperties.Ms_seen
    (alpha Ms gamma exchange anisotropy : MultiFab)
    (alpha_val Ms_val gamma_val exchange_val anisotropy_val : Real)
    (prob_lo prob_hi mag_lo mag_hi : GpuArray Real) (geom : Geometry)
    (hMs : Ms.boxArray = alpha.boxArray)
    (n : Nat) (bx : Box) (hbx : alpha.boxArray[n]? = some bx)
    (a b c : Int) (hgrown : (bx.grow Ms.nGrow).contains a b c)
    (hown : alpha.ownsCell a b c) :
    (InitializeMagneticProperties alpha Ms gamma exchange anisotropy alpha_val Ms_val
      gamma_val exchange_val anisotropy_val prob_lo prob_hi mag_lo mag_hi
      geom).Ms.array n a b c
      = if centreStrictlyInside prob_lo mag_lo mag_hi geom.CellSizeArray a b c then Ms_val
        else 0 := by
  obtain ⟨_, b2, _, _, _⟩ := InitializeMagneticProperties.forEach_boxArray alpha_val
    Ms_val gamma_val exchange_val anisotropy_val prob_lo mag_lo mag_hi geom
    alpha.boxArray 0
    { alpha := alpha.setVal 0, Ms := Ms.setVal 0, gamma := gamma.setVal 0,
      exchange := exchange.setVal 0, anisotropy := anisotropy.setVal 0 }
  obtain ⟨_, g2, _, _, _⟩ := InitializeMagneticProperties.forEach_nGrow alpha_val
    Ms_val gamma_val exchange_val anisotropy_val prob_lo mag_lo mag_hi geom
    alpha.boxArray 0
    { alpha := alpha.setVal 0, Ms := Ms.setVal 0, gamma := gamma.setVal 0,
      exchange := exchange.setVal 0, anisotropy := anisotropy.setVal 0 }
  have hb := b2.trans hMs
  have hg : _ = Ms.nGrow := g2
  have hval : ∀ (m : Nat) (bm : Box), alpha.boxArray[m]? = some bm → bm.contains a b c →
      (MFIter.forEach (InitializeMagneticProperties.loopBody alpha_val Ms_val gamma_val
        exchange_val anisotropy_val prob_lo mag_lo mag_hi geom) alpha.boxArray 0
        { alpha := alpha.setVal 0, Ms := Ms.setVal 0, gamma := gamma.setVal 0,
          exchange := exchange.setVal 0, anisotropy := anisotropy.setVal 0 }).Ms.array
        m a b c
        = if centreStrictlyInside prob_lo mag_lo mag_hi geom.CellSizeArray a b c then Ms_val
          else 0 := by
    intro m bm hbm hcm
    have w := (InitializeMagneticProperties.forEach_array_at alpha_val Ms_val gamma_val
      exchange_val anisotropy_val prob_lo mag_lo mag_hi geom alpha.boxArray 0 m
      { alpha := alpha.setVal 0, Ms := Ms.setVal 0, gamma := gamma.setVal 0,
        exchange := exchange.setVal 0, anisotropy := anisotropy.setVal 0 } bm hbm a b c).2.1
    simp only [Nat.zero_add] at w
    rw [w]
    simp only [MultiFab.setVal, hcm, true_and]
  show (MultiFab.FillBoundary _ geom.periodicity).array n a b c = _
  simp only [MultiFab.FillBoundary, hb, hbx, hg]
  by_cases hc : bx.contains a b c
  · rw [if_pos hc]
    exact hval n bx hbx hc
  · rw [if_neg hc, if_pos hgrown, MultiFab.ghostSources_head _ geom.periodicity a b c
      (if centreStrictlyInside prob_lo mag_lo mag_hi geom.CellSizeArray a b c then Ms_val
        else 0)
      (by
        obtain ⟨bo, hmem, hco⟩ := hown
        exact ⟨bo, by rw [hb]; exact hmem, hco⟩)
      (fun m bm hbm hcm => hval m bm (by rw [← hb]; exact hbm) hcm)]
    rfl

/-- A cell owned by sub-region `n` is an owned cell. -/
theorem MultiFab.ownsCell_of_ownsAt (mf : MultiFab) (n : Nat) (i j k : Int)
    (h : mf.ownsAt n i j k) : mf.ownsCell i j k := by
  obtain ⟨bx, hbx, hcell⟩ := (MultiFab.ownsAt_iff mf n i j k).1 h
  exact ⟨bx, List.mem_iff_getElem?.2 ⟨n, hbx⟩, hcell⟩

/-- For a nonzero `Ms_val`, sub-region `n` sees a nonzero `Ms` at every cell of its
grown box that is owned by some sub-region and has its centre strictly inside the
region. -/
theorem InitializeMagneticProperties.Ms_seen_ne_zero
    (alpha Ms gamma exchange anisotropy : MultiFab)
    (alpha_val Ms_val gamma_val exchange_val anisotropy_val : Real)
    (prob_lo prob_hi mag_lo mag_hi : GpuArray Real) (geom : Geometry)
    (hMs : Ms.boxArray = alpha.boxArray) (hval : Ms_val ≠ 0)
    (n : Nat) (bx : Box) (hbx : alpha.boxArray[n]? = some bx)
    (a b c : Int) (hgrown : (bx.grow Ms.nGrow).contains a b c)
    (hown : alpha.ownsCell a b c)
    (hin : centreStrictlyInside prob_lo mag_lo mag_hi geom.CellSizeArray a b c) :
    (InitializeMagneticProperties alpha Ms gamma exchange anisotropy alpha_val Ms_val
      gamma_val exchange_val anisotropy_val prob_lo prob_hi mag_lo mag_hi
      geom).Ms.array n a b c ≠ 0 := by
  rw [InitializeMagneticProperties.Ms_seen alpha Ms gamma exchange anisotropy alpha_val
    Ms_val gamma_val exchange_val anisotropy_val prob_lo prob_hi mag_lo mag_hi geom hMs n bx
    hbx a b c hgrown hown, if_pos hin]
  exact hval

/-! ## Lemmas on binary64 rounding -/

set_option maxRecDepth 4000

/-- The rounded quotient is a nearest integer: it differs from `N / D` by at most
one half. -/
theorem roundHalfEven_nearest (N D : Nat) (hD : 0 < D) :
    2 * (roundHalfEven N D * D) ≤ 2 * N + D ∧ 2 * N ≤ 2 * (roundHalfEven N D * D) + D := by
  have hN : D * (N / D) + N % D = N := Nat.div_add_mod N D
  have hr : N % D < D := Nat.mod_lt N hD
  have hq : N / D * D = D * (N / D) := Nat.mul_comm _ _
  simp only [roundHalfEven]
  split_ifs with h1 h2
  · rw [hq]
    omega
  · rw [Nat.add_mul, Nat.one_mul, hq]
    omega
  · rcases Nat.mod_two_eq_zero_or_one (N / D) with h | h
    · rw [h, Nat.add_zero, hq]
      omega
    · rw [h, Nat.add_mul, Nat.one_mul, hq]
      omega

/-- On a tie the rounded quotient is even. -/
theorem roundHalfEven_tie_even (N D : Nat) (htie : 2 * (N % D) = D) :
    roundHalfEven N D % 2 = 0 := by
  have h1 : ¬ 2 * (N % D) < D := by omega
  have h2 : ¬ D < 2 * (N % D) := by omega
  simp only [roundHalfEven, if_neg h1, if_neg h2]
  omega

/-- Checks of the rounding against known binary64 values: the literal `0.3` is
`0x1.3333333333333p-2`, its reciprocal rounds to `0x1.aaaaaaaaaaaabp+1`, and small
integers are exact. -/
theorem Binary64.round_checks :
    Binary64.round 3 10 = ⟨5404319552844595, -54⟩ ∧
    Binary64.div (Binary64.ofInt 1) (Binary64.round 3 10) = some ⟨7505999378950827, -51⟩ ∧
    Binary64.ofInt 16 = ⟨4503599627370496, -48⟩ ∧
    Binary64.sub (Binary64.ofInt 16) (Binary64.ofInt 9) = Binary64.ofInt 7 ∧
    Binary64.div (Binary64.ofInt 1) Binary64.zero = none := by
  decide

/-! ## Theorems -/

/-- C1: with both indicators of an axis nonzero and a nonzero spacing, the masked
per-axis Laplacian is the standard three-point second difference
`(F(i+1) - 2 F(i) + F(i-1)) / d^2`, for x, y and z alike. -/
theorem laplacian_both_nonzero_eq_second_difference (F : Array4) (i j k : Int)
    (geom : Geometry) (Ms_lo Ms_hi : Real) (hlo : Ms_lo ≠ 0) (hhi : Ms_hi ≠ 0) :
    (geom.CellSizeArray 0 ≠ 0 →
      LaplacianDx_Mag F Ms_lo Ms_hi i j k geom
        = (F (i + 1) j k - 2 * F i j k + F (i - 1) j k) / (geom.CellSizeArray 0) ^ 2) ∧
    (geom.CellSizeArray 1 ≠ 0 →
      LaplacianDy_Mag F Ms_lo Ms_hi i j k geom
        = (F i (j + 1) k - 2 * F i j k + F i (j - 1) k) / (geom.CellSizeArray 1) ^ 2) ∧
    (geom.CellSizeArray 2 ≠ 0 →
      LaplacianDz_Mag F Ms_lo Ms_hi i j k geom
        = (F i j (k + 1) - 2 * F i j k + F i j (k - 1)) / (geom.CellSizeArray 2) ^ 2) := by
  refine ⟨fun _ => ?_, fun _ => ?_, fun _ => ?_⟩
  · simp only [LaplacianDx_Mag, UpwardDx, DownwardDx, if_neg hlo, if_neg hhi]
    ring
  · simp only [LaplacianDy_Mag, UpwardDy, DownwardDy, if_neg hlo, if_neg hhi]
    ring
  · simp only [LaplacianDz_Mag, UpwardDz, DownwardDz, if_neg hlo, if_neg hhi]
    ring

/-- Witness for C1 on `quadField` with spacings `2, 3, 4`. -/
theorem laplacian_both_nonzero_eq_second_difference_witness :
    LaplacianDx_Mag quadField 1 7 3 4 5 (geomOfSpacing 2 3 4) = 1 / 2 ∧
    LaplacianDy_Mag quadField 1 7 3 4 5 (geomOfSpacing 2 3 4) = 4 / 9 ∧
    LaplacianDz_Mag quadField 1 7 3 4 5 (geomOfSpacing 2 3 4) = 3 / 8 := by
  have h := laplacian_both_nonzero_eq_second_difference quadField 3 4 5
    (geomOfSpacing 2 3 4) 1 7 (by norm_num) (by norm_num)
  refine ⟨?_, ?_, ?_⟩
  · rw [h.1 (by simp [geomOfSpacing])]
    norm_num [quadField, geomOfSpacing]
  · rw [h.2.1 (by simp [geomOfSpacing])]
    norm_num [quadField, geomOfSpacing]
  · rw [h.2.2 (by simp [geomOfSpacing])]
    norm_num [quadField, geomOfSpacing]

/-- C2: whenever the high-side indicator of an axis is zero, whatever the low-side
indicator is (zero included), the masked per-axis Laplacian is
`(0 - Downward) / d = -(F(i) - F(i-1)) / d^2`; in particular the high-side branch
wins when both indicators are zero. -/
theorem laplacian_hi_zero_eq_backward (F : Array4) (i j k : Int)
    (geom : Geometry) (Ms_lo : Real) :
    (geom.CellSizeArray 0 ≠ 0 →
      LaplacianDx_Mag F Ms_lo 0 i j k geom
          = (0 - DownwardDx F i j k geom) / geom.CellSizeArray 0 ∧
      LaplacianDx_Mag F Ms_lo 0 i j k geom
          = -(F i j k - F (i - 1) j k) / (geom.CellSizeArray 0) ^ 2) ∧
    (geom.CellSizeArray 1 ≠ 0 →
      LaplacianDy_Mag F Ms_lo 0 i j k geom
          = (0 - DownwardDy F i j k geom) / geom.CellSizeArray 1 ∧
      LaplacianDy_Mag F Ms_lo 0 i j k geom
          = -(F i j k - F i (j - 1) k) / (geom.CellSizeArray 1) ^ 2) ∧
    (geom.CellSizeArray 2 ≠ 0 →
      LaplacianDz_Mag F Ms_lo 0 i j k geom
          = (0 - DownwardDz F i j k geom) / geom.CellSizeArray 2 ∧
      LaplacianDz_Mag F Ms_lo 0 i j k geom
          = -(F i j k - F i j (k - 1)) / (geom.CellSizeArray 2) ^ 2) := by
  refine ⟨fun _ => ⟨?_, ?_⟩, fun _ => ⟨?_, ?_⟩, fun _ => ⟨?_, ?_⟩⟩
  · simp only [LaplacianDx_Mag, if_true]
    ring
  · simp only [LaplacianDx_Mag, DownwardDx, if_true]
    ring
  · simp only [LaplacianDy_Mag, if_true]
    ring
  · simp only [LaplacianDy_Mag, DownwardDy, if_true]
    ring
  · simp only [LaplacianDz_Mag, if_true]
    ring
  · simp only [LaplacianDz_Mag, DownwardDz, if_true]
    ring

/-- Witness for C2 on `quadField` with both indicators zero and spacings `2, 3, 4`. -/
theorem laplacian_hi_zero_eq_backward_witness :
    LaplacianDx_Mag quadField 0 0 3 4 5 (geomOfSpacing 2 3 4) = -5 / 4 ∧
    LaplacianDy_Mag quadField 0 0 3 4 5 (geomOfSpacing 2 3 4) = -14 / 9 ∧
    LaplacianDz_Mag quadField 0 0 3 4 5 (geomOfSpacing 2 3 4) = -27 / 16 := by
  have h := laplacian_hi_zero_eq_backward quadField 3 4 5 (geomOfSpacing 2 3 4) 0
  refine ⟨?_, ?_, ?_⟩
  · rw [(h.1 (by simp [geomOfSpacing])).2]
    norm_num [quadField, geomOfSpacing]
  · rw [(h.2.1 (by simp [geomOfSpacing])).2]
    norm_num [quadField, geomOfSpacing]
  · rw [(h.2.2 (by simp [geomOfSpacing])).2]
    norm_num [quadField, geomOfSpacing]

/-- C3: with the low-side indicator zero and the high-side indicator nonzero, the
masked per-axis Laplacian is `(Upward - 0) / d = (F(i+1) - F(i)) / d^2`; it uses the
forward difference only, so changing the field at the low-side neighbour alone does
not change the result. -/
theorem laplacian_lo_zero_eq_forward (F : Array4) (i j k : Int)
    (geom : Geometry) (Ms_hi : Real) (hhi : Ms_hi ≠ 0) :
    (geom.CellSizeArray 0 ≠ 0 →
      LaplacianDx_Mag F 0 Ms_hi i j k geom
          = (UpwardDx F i j k geom - 0) / geom.CellSizeArray 0 ∧
      LaplacianDx_Mag F 0 Ms_hi i j k geom
          = (F (i + 1) j k - F i j k) / (geom.CellSizeArray 0) ^ 2 ∧
      ∀ G : Array4, (∀ a b c, (a, b, c) ≠ (i - 1, j, k) → G a b c = F a b c) →
        LaplacianDx_Mag G 0 Ms_hi i j k geom = LaplacianDx_Mag F 0 Ms_hi i j k geom) ∧
    (geom.CellSizeArray 1 ≠ 0 →
      LaplacianDy_Mag F 0 Ms_hi i j k geom
          = (UpwardDy F i j k geom - 0) / geom.CellSizeArray 1 ∧
      LaplacianDy_Mag F 0 Ms_hi i j k geom
          = (F i (j + 1) k - F i j k) / (geom.CellSizeArray 1) ^ 2 ∧
      ∀ G : Array4, (∀ a b c, (a, b, c) ≠ (i, j - 1, k) → G a b c = F a b c) →
        LaplacianDy_Mag G 0 Ms_hi i j k geom = LaplacianDy_Mag F 0 Ms_hi i j k geom) ∧
    (geom.CellSizeArray 2 ≠ 0 →
      LaplacianDz_Mag F 0 Ms_hi i j k geom
          = (UpwardDz F i j k geom - 0) / geom.CellSizeArray 2 ∧
      LaplacianDz_Mag F 0 Ms_hi i j k geom
          = (F i j (k + 1) - F i j k) / (geom.CellSizeArray 2) ^ 2 ∧
      ∀ G : Array4, (∀ a b c, (a, b, c) ≠ (i, j, k - 1) → G a b c = F a b c) →
        LaplacianDz_Mag G 0 Ms_hi i j k geom = LaplacianDz_Mag F 0 Ms_hi i j k geom) := by
  refine ⟨fun _ => ⟨?_, ?_, fun G hG => ?_⟩, fun _ => ⟨?_, ?_, fun G hG => ?_⟩,
    fun _ => ⟨?_, ?_, fun G hG => ?_⟩⟩
  · simp only [LaplacianDx_Mag, if_neg hhi, if_true]
    ring
  · simp only [LaplacianDx_Mag, UpwardDx, if_neg hhi, if_true]
    ring
  · simp only [LaplacianDx_Mag, UpwardDx, if_neg hhi, if_true]
    rw [hG (i + 1) j k (by simp; omega), hG i j k (by simp; omega)]
  · simp only [LaplacianDy_Mag, if_neg hhi, if_true]
    ring
  · simp only [LaplacianDy_Mag, UpwardDy, if_neg hhi, if_true]
    ring
  · simp only [LaplacianDy_Mag, UpwardDy, if_neg hhi, if_true]
    rw [hG i (j + 1) k (by simp; omega), hG i j k (by simp; omega)]
  · simp only [LaplacianDz_Mag, if_neg hhi, if_true]
    ring
  · simp only [LaplacianDz_Mag, UpwardDz, if_neg hhi, if_true]
    ring
  · simp only [LaplacianDz_Mag, UpwardDz, if_neg hhi, if_true]
    rw [hG i j (k + 1) (by simp; omega), hG i j k (by simp; omega)]

/-- Witness for C3 on `quadField` with spacings `2, 3, 4`. -/
theorem laplacian_lo_zero_eq_forward_witness :
    LaplacianDx_Mag quadField 0 7 3 4 5 (geomOfSpacing 2 3 4) = 7 / 4 ∧
    LaplacianDy_Mag quadField 0 7 3 4 5 (geomOfSpacing 2 3 4) = 2 ∧
    LaplacianDz_Mag quadField 0 7 3 4 5 (geomOfSpacing 2 3 4) = 33 / 16 := by
  have h := laplacian_lo_zero_eq_forward quadField 3 4 5 (geomOfSpacing 2 3 4) 7
    (by norm_num)
  refine ⟨?_, ?_, ?_⟩
  · rw [(h.1 (by simp [geomOfSpacing])).2.1]
    norm_num [quadField, geomOfSpacing]
  · rw [(h.2.1 (by simp [geomOfSpacing])).2.1]
    norm_num [quadField, geomOfSpacing]
  · rw [(h.2.2 (by simp [geomOfSpacing])).2.1]
    norm_num [quadField, geomOfSpacing]

/-- C4: zero-flux boundary property. With the high-side indicator zero, two fields
that agree everywhere except possibly at the high-side neighbour give the same
masked per-axis Laplacian, whatever the low-side indicator and the spacing are. -/
theorem laplacian_hi_zero_ignores_hi_neighbour (F : Array4) (i j k : Int)
    (geom : Geometry) (Ms_lo : Real) :
    (∀ G : Array4, (∀ a b c, (a, b, c) ≠ (i + 1, j, k) → F a b c = G a b c) →
      LaplacianDx_Mag F Ms_lo 0 i j k geom = LaplacianDx_Mag G Ms_lo 0 i j k geom) ∧
    (∀ G : Array4, (∀ a b c, (a, b, c) ≠ (i, j + 1, k) → F a b c = G a b c) →
      LaplacianDy_Mag F Ms_lo 0 i j k geom = LaplacianDy_Mag G Ms_lo 0 i j k geom) ∧
    (∀ G : Array4, (∀ a b c, (a, b, c) ≠ (i, j, k + 1) → F a b c = G a b c) →
      LaplacianDz_Mag F Ms_lo 0 i j k geom = LaplacianDz_Mag G Ms_lo 0 i j k geom) := by
  refine ⟨fun G hG => ?_, fun G hG => ?_, fun G hG => ?_⟩
  · simp only [LaplacianDx_Mag, DownwardDx, if_true]
    rw [hG i j k (by simp), hG (i - 1) j k (by simp; omega)]
  · simp only [LaplacianDy_Mag, DownwardDy, if_true]
    rw [hG i j k (by simp), hG i (j - 1) k (by simp; omega)]
  · simp only [LaplacianDz_Mag, DownwardDz, if_true]
    rw [hG i j k (by simp), hG i j (k - 1) (by simp; omega)]

/-- Witness for C4: overwriting the high-side neighbour of `(3,4,5)` with `1000`
leaves the three masked Laplacians unchanged when the high indicator is zero. -/
theorem laplacian_hi_zero_ignores_hi_neighbour_witness :
    LaplacianDx_Mag quadField 7 0 3 4 5 (geomOfSpacing 2 3 4)
      = LaplacianDx_Mag (quadFieldWith 4 4 5 1000) 7 0 3 4 5 (geomOfSpacing 2 3 4) ∧
    LaplacianDy_Mag quadField 7 0 3 4 5 (geomOfSpacing 2 3 4)
      = LaplacianDy_Mag (quadFieldWith 3 5 5 1000) 7 0 3 4 5 (geomOfSpacing 2 3 4) ∧
    LaplacianDz_Mag quadField 7 0 3 4 5 (geomOfSpacing 2 3 4)
      = LaplacianDz_Mag (quadFieldWith 3 4 6 1000) 7 0 3 4 5 (geomOfSpacing 2 3 4) := by
  have h := laplacian_hi_zero_ignores_hi_neighbour quadField 3 4 5 (geomOfSpacing 2 3 4) 7
  refine ⟨h.1 _ ?_, h.2.1 _ ?_, h.2.2 _ ?_⟩
  · intro a b c hne
    have : ¬ (a, b, c) = ((4 : Int), (4 : Int), (5 : Int)) := by simpa using hne
    simp [quadFieldWith, this]
  · intro a b c hne
    have : ¬ (a, b, c) = ((3 : Int), (5 : Int), (5 : Int)) := by simpa using hne
    simp [quadFieldWith, this]
  · intro a b c hne
    have : ¬ (a, b, c) = ((3 : Int), (4 : Int), (6 : Int)) := by simpa using hne
    simp [quadFieldWith, this]

/-- C5: for every field, every six indicator values, every index and every
geometry, `Laplacian_Mag` is the sum of the three per-axis masked Laplacians, each
taking only the indicator pair of its own axis. -/
theorem Laplacian_Mag_eq_sum (F : Array4)
    (Ms_lo_x Ms_hi_x Ms_lo_y Ms_hi_y Ms_lo_z Ms_hi_z : Real) (i j k : Int)
    (geom : Geometry) :
    Laplacian_Mag F Ms_lo_x Ms_hi_x Ms_lo_y Ms_hi_y Ms_lo_z Ms_hi_z i j k geom
      = LaplacianDx_Mag F Ms_lo_x Ms_hi_x i j k geom
        + LaplacianDy_Mag F Ms_lo_y Ms_hi_y i j k geom
        + LaplacianDz_Mag F Ms_lo_z Ms_hi_z i j k geom := by
  unfold Laplacian_Mag
  rfl

/-- C6: for nonzero spacings the six axis primitives are the one-sided first
differences, each divided by the spacing of its own axis; each reads the field at
its two stencil points only, so any field with the same two values gives the same
result. -/
theorem axis_primitives_eq_one_sided_differences (F : Array4) (i j k : Int)
    (geom : Geometry) (_hx : geom.CellSizeArray 0 ≠ 0) (_hy : geom.CellSizeArray 1 ≠ 0)
    (_hz : geom.CellSizeArray 2 ≠ 0) :
    (UpwardDx F i j k geom = (F (i + 1) j k - F i j k) / geom.CellSizeArray 0 ∧
      DownwardDx F i j k geom = (F i j k - F (i - 1) j k) / geom.CellSizeArray 0 ∧
      UpwardDy F i j k geom = (F i (j + 1) k - F i j k) / geom.CellSizeArray 1 ∧
      DownwardDy F i j k geom = (F i j k - F i (j - 1) k) / geom.CellSizeArray 1 ∧
      UpwardDz F i j k geom = (F i j (k + 1) - F i j k) / geom.CellSizeArray 2 ∧
      DownwardDz F i j k geom = (F i j k - F i j (k - 1)) / geom.CellSizeArray 2) ∧
    (∀ G : Array4, G i j k = F i j k →
      (G (i + 1) j k = F (i + 1) j k → UpwardDx G i j k geom = UpwardDx F i j k geom) ∧
      (G (i - 1) j k = F (i - 1) j k → DownwardDx G i j k geom = DownwardDx F i j k geom) ∧
      (G i (j + 1) k = F i (j + 1) k → UpwardDy G i j k geom = UpwardDy F i j k geom) ∧
      (G i (j - 1) k = F i (j - 1) k → DownwardDy G i j k geom = DownwardDy F i j k geom) ∧
      (G i j (k + 1) = F i j (k + 1) → UpwardDz G i j k geom = UpwardDz F i j k geom) ∧
      (G i j (k - 1) = F i j (k - 1) →
        DownwardDz G i j k geom = DownwardDz F i j k geom)) := by
  refine ⟨⟨?_, ?_, ?_, ?_, ?_, ?_⟩, fun G h0 => ⟨?_, ?_, ?_, ?_, ?_, ?_⟩⟩
  · simp only [UpwardDx]; ring
  · simp only [DownwardDx]; ring
  · simp only [UpwardDy]; ring
  · simp only [DownwardDy]; ring
  · simp only [UpwardDz]; ring
  · simp only [DownwardDz]; ring
  · intro h; simp only [UpwardDx, h0, h]
  · intro h; simp only [DownwardDx, h0, h]
  · intro h; simp only [UpwardDy, h0, h]
  · intro h; simp only [DownwardDy, h0, h]
  · intro h; simp only [UpwardDz, h0, h]
  · intro h; simp only [DownwardDz, h0, h]

/-- Witness for C6 on `quadField` at `(3,4,5)` with spacings `2, 3, 4`. -/
theorem axis_primitives_eq_one_sided_differences_witness :
    UpwardDx quadField 3 4 5 (geomOfSpacing 2 3 4) = 7 / 2 ∧
    DownwardDx quadField 3 4 5 (geomOfSpacing 2 3 4) = 5 / 2 ∧
    UpwardDy quadField 3 4 5 (geomOfSpacing 2 3 4) = 6 ∧
    DownwardDy quadField 3 4 5 (geomOfSpacing 2 3 4) = 14 / 3 ∧
    UpwardDz quadField 3 4 5 (geomOfSpacing 2 3 4) = 33 / 4 ∧
    DownwardDz quadField 3 4 5 (geomOfSpacing 2 3 4) = 27 / 4 := by
  have h := (axis_primitives_eq_one_sided_differences quadField 3 4 5
    (geomOfSpacing 2 3 4) (by simp [geomOfSpacing]) (by simp [geomOfSpacing])
    (by simp [geomOfSpacing])).1
  obtain ⟨h1, h2, h3, h4, h5, h6⟩ := h
  rw [h1, h2, h3, h4, h5, h6]
  norm_num [quadField, geomOfSpacing]

/-- C7: after `InitializeMagneticProperties`, at every cell `(i,j,k)` of every owned
sub-region (valid box `bx` of index `n`), with the cell-centre coordinates
`x = prob_lo[0] + (i+0.5)*dx`, `y`, `z` computed as in the kernel: if
`mag_lo < (x,y,z) < mag_hi` strictly on all three axes, the five fields hold their
material values; otherwise, a centre exactly on a region bound included, all five
hold `0`. The five fields share one box layout, as the common `MFIter` requires. -/
theorem InitializeMagneticProperties_owned_cells
    (alpha Ms gamma exchange anisotropy : MultiFab)
    (alpha_val Ms_val gamma_val exchange_val anisotropy_val : Real)
    (prob_lo prob_hi mag_lo mag_hi : GpuArray Real) (geom : Geometry)
    (hMs : Ms.boxArray = alpha.boxArray) (hgamma : gamma.boxArray = alpha.boxArray)
    (hexchange : exchange.boxArray = alpha.boxArray)
    (hanisotropy : anisotropy.boxArray = alpha.boxArray)
    (n : Nat) (bx : Box) (hbx : alpha.boxArray[n]? = some bx)
    (i j k : Int) (hcell : bx.contains i j k) :
    let r := InitializeMagneticProperties alpha Ms gamma exchange anisotropy alpha_val
      Ms_val gamma_val exchange_val anisotropy_val prob_lo prob_hi mag_lo mag_hi geom
    let x := prob_lo 0 + ((i : Real) + 0.5) * geom.CellSizeArray 0
    let y := prob_lo 1 + ((j : Real) + 0.5) * geom.CellSizeArray 1
    let z := prob_lo 2 + ((k : Real) + 0.5) * geom.CellSizeArray 2
    let inside := (mag_lo 0 < x ∧ x < mag_hi 0) ∧ (mag_lo 1 < y ∧ y < mag_hi 1) ∧
      (mag_lo 2 < z ∧ z < mag_hi 2)
    (inside →
      r.alpha.array n i j k = alpha_val ∧ r.Ms.array n i j k = Ms_val ∧
      r.gamma.array n i j k = gamma_val ∧ r.exchange.array n i j k = exchange_val ∧
      r.anisotropy.array n i j k = anisotropy_val) ∧
    (¬ inside →
      r.alpha.array n i j k = 0 ∧ r.Ms.array n i j k = 0 ∧
      r.gamma.array n i j k = 0 ∧ r.exchange.array n i j k = 0 ∧
      r.anisotropy.array n i j k = 0) := by
  intro r x y z inside
  obtain ⟨b1, b2, b3, b4, b5⟩ := InitializeMagneticProperties.forEach_boxArray alpha_val
    Ms_val gamma_val exchange_val anisotropy_val prob_lo mag_lo mag_hi geom
    alpha.boxArray 0
    { alpha := alpha.setVal 0, Ms := Ms.setVal 0, gamma := gamma.setVal 0,
      exchange := exchange.setVal 0, anisotropy := anisotropy.setVal 0 }
  obtain ⟨w1, w2, w3, w4, w5⟩ := InitializeMagneticProperties.forEach_array_at alpha_val
    Ms_val gamma_val exchange_val anisotropy_val prob_lo mag_lo mag_hi geom
    alpha.boxArray 0 n
    { alpha := alpha.setVal 0, Ms := Ms.setVal 0, gamma := gamma.setVal 0,
      exchange := exchange.setVal 0, anisotropy := anisotropy.setVal 0 } bx hbx i j k
  simp only [Nat.zero_add] at w1 w2 w3 w4 w5
  have f1 : r.alpha.array n i j k = _ :=
    MultiFab.FillBoundary_valid _ geom.periodicity n bx (by rw [b1]; exact hbx) i j k hcell
  have f2 : r.Ms.array n i j k = _ :=
    MultiFab.FillBoundary_valid _ geom.periodicity n bx (by rw [b2.trans hMs]; exact hbx)
      i j k hcell
  have f3 : r.gamma.array n i j k = _ :=
    MultiFab.FillBoundary_valid _ geom.periodicity n bx (by rw [b3.trans hgamma]; exact hbx)
      i j k hcell
  have f4 : r.exchange.array n i j k = _ :=
    MultiFab.FillBoundary_valid _ geom.periodicity n bx (by rw [b4.trans hexchange]; exact hbx)
      i j k hcell
  have f5 : r.anisotropy.array n i j k = _ :=
    MultiFab.FillBoundary_valid _ geom.periodicity n bx
      (by rw [b5.trans hanisotropy]; exact hbx) i j k hcell
  rw [f1, f2, f3, f4, f5, w1, w2, w3, w4, w5]
  simp only [MultiFab.setVal]
  have hin : centreStrictlyInside prob_lo mag_lo mag_hi geom.CellSizeArray i j k ↔ inside :=
    Iff.rfl
  constructor
  · intro h
    have hit : bx.contains i j k ∧
        centreStrictlyInside prob_lo mag_lo mag_hi geom.CellSizeArray i j k :=
      ⟨hcell, hin.2 h⟩
    simp only [if_pos hit, and_self]
  · intro h
    have hit : ¬ (bx.contains i j k ∧
        centreStrictlyInside prob_lo mag_lo mag_hi geom.CellSizeArray i j k) :=
      fun hh => h (hin.1 hh.2)
    simp only [if_neg hit, and_self]

/-- Witness for C7 on the fixture: cell `(2,1,1)` of the second sub-region has its
centre inside the region and carries the material values; cell `(1,1,1)` of the
first sub-region has its centre exactly on the low x-bound and carries `0`. -/
theorem InitializeMagneticProperties_owned_cells_witness :
    (fixtureProperties.alpha.array 1 2 1 1 = 11 ∧ fixtureProperties.Ms.array 1 2 1 1 = 22 ∧
      fixtureProperties.gamma.array 1 2 1 1 = 33 ∧
      fixtureProperties.exchange.array 1 2 1 1 = 44 ∧
      fixtureProperties.anisotropy.array 1 2 1 1 = 55) ∧
    (fixtureProperties.alpha.array 0 1 1 1 = 0 ∧ fixtureProperties.Ms.array 0 1 1 1 = 0 ∧
      fixtureProperties.gamma.array 0 1 1 1 = 0 ∧
      fixtureProperties.exchange.array 0 1 1 1 = 0 ∧
      fixtureProperties.anisotropy.array 0 1 1 1 = 0) :=
  ⟨(InitializeMagneticProperties_owned_cells (fixtureFab 1) (fixtureFab 2) (fixtureFab 3)
      (fixtureFab 4) (fixtureFab 5) 11 22 33 44 55 ![0, 0, 0] ![4, 4, 4] ![3 / 2, 0, 0]
      ![4, 4, 4] fixtureGeom rfl rfl rfl rfl 1 fixtureBoxHi rfl 2 1 1
      (by simp [Box.contains, fixtureBoxHi])).1
      (by norm_num [fixtureGeom]),
    (InitializeMagneticProperties_owned_cells (fixtureFab 1) (fixtureFab 2) (fixtureFab 3)
      (fixtureFab 4) (fixtureFab 5) 11 22 33 44 55 ![0, 0, 0] ![4, 4, 4] ![3 / 2, 0, 0]
      ![4, 4, 4] fixtureGeom rfl rfl rfl rfl 0 fixtureBoxLo rfl 1 1 1
      (by simp [Box.contains, fixtureBoxLo])).2
      (by norm_num [fixtureGeom])⟩

/-- C8: end-to-end scenario. For a field with `F = [0, 1, 4, 9, 16]` at x-indices
`0..4`, spacing `dx = 1`, low indicator zero (high nonzero) at index 0, both
indicators nonzero at 1, 2, 3 and high indicator zero (low nonzero) at index 4,
`LaplacianDx_Mag` is `1` at index 0, `2` at indices 1, 2, 3 and `-7` at index 4. -/
theorem end_to_end_scenario (F : Array4) (j k : Int) (geom : Geometry)
    (Ms_lo Ms_hi : Int → Real)
    (hdx : geom.CellSizeArray 0 = 1)
    (hF0 : F 0 j k = 0) (hF1 : F 1 j k = 1) (hF2 : F 2 j k = 4) (hF3 : F 3 j k = 9)
    (hF4 : F 4 j k = 16)
    (hlo0 : Ms_lo 0 = 0) (hhi0 : Ms_hi 0 ≠ 0)
    (hin : ∀ i : Int, 1 ≤ i → i ≤ 3 → Ms_lo i ≠ 0 ∧ Ms_hi i ≠ 0)
    (_hlo4 : Ms_lo 4 ≠ 0) (hhi4 : Ms_hi 4 = 0) :
    LaplacianDx_Mag F (Ms_lo 0) (Ms_hi 0) 0 j k geom = 1 ∧
    LaplacianDx_Mag F (Ms_lo 1) (Ms_hi 1) 1 j k geom = 2 ∧
    LaplacianDx_Mag F (Ms_lo 2) (Ms_hi 2) 2 j k geom = 2 ∧
    LaplacianDx_Mag F (Ms_lo 3) (Ms_hi 3) 3 j k geom = 2 ∧
    LaplacianDx_Mag F (Ms_lo 4) (Ms_hi 4) 4 j k geom = -7 := by
  obtain ⟨l1, u1⟩ := hin 1 (by norm_num) (by norm_num)
  obtain ⟨l2, u2⟩ := hin 2 (by norm_num) (by norm_num)
  obtain ⟨l3, u3⟩ := hin 3 (by norm_num) (by norm_num)
  refine ⟨?_, ?_, ?_, ?_, ?_⟩
  · simp only [LaplacianDx_Mag, UpwardDx, if_neg hhi0, if_pos hlo0, hdx]
    norm_num [hF0, hF1]
  · simp only [LaplacianDx_Mag, UpwardDx, DownwardDx, if_neg l1, if_neg u1, hdx]
    norm_num [hF0, hF1, hF2]
  · simp only [LaplacianDx_Mag, UpwardDx, DownwardDx, if_neg l2, if_neg u2, hdx]
    norm_num [hF1, hF2, hF3]
  · simp only [LaplacianDx_Mag, UpwardDx, DownwardDx, if_neg l3, if_neg u3, hdx]
    norm_num [hF2, hF3, hF4]
  · simp only [LaplacianDx_Mag, DownwardDx, if_pos hhi4, hdx]
    norm_num [hF3, hF4]

/-- Witness for C8 on the concrete scenario field and indicators. -/
theorem end_to_end_scenario_witness :
    LaplacianDx_Mag scenarioField (scenarioMsLo 0) (scenarioMsHi 0) 0 0 0
      (geomOfSpacing 1 1 1) = 1 ∧
    LaplacianDx_Mag scenarioField (scenarioMsLo 1) (scenarioMsHi 1) 1 0 0
      (geomOfSpacing 1 1 1) = 2 ∧
    LaplacianDx_Mag scenarioField (scenarioMsLo 2) (scenarioMsHi 2) 2 0 0
      (geomOfSpacing 1 1 1) = 2 ∧
    LaplacianDx_Mag scenarioField (scenarioMsLo 3) (scenarioMsHi 3) 3 0 0
      (geomOfSpacing 1 1 1) = 2 ∧
    LaplacianDx_Mag scenarioField (scenarioMsLo 4) (scenarioMsHi 4) 4 0 0
      (geomOfSpacing 1 1 1) = -7 :=
  end_to_end_scenario scenarioField 0 0 (geomOfSpacing 1 1 1) scenarioMsLo scenarioMsHi
    (by simp [geomOfSpacing]) (by simp [scenarioField]) (by simp [scenarioField])
    (by simp [scenarioField]) (by simp [scenarioField]) (by simp [scenarioField])
    (by simp [scenarioMsLo]) (by simp [scenarioMsHi])
    (fun i h1 h3 => by
      have a : i ≠ 0 := by omega
      have b : i ≠ 4 := by omega
      simp [scenarioMsLo, scenarioMsHi, a, b])
    (by simp [scenarioMsLo]) (by simp [scenarioMsHi])

/-- C9: for a nonzero spacing `dx` and the field `F(i,j,k) = i^2 * dx^2`,
`LaplacianDx_Mag` is exactly `2` at every index whenever both x-indicators are
nonzero. -/
theorem laplacian_of_square_field_eq_two (geom : Geometry) (Ms_lo_x Ms_hi_x : Real)
    (i j k : Int) (hdx : geom.CellSizeArray 0 ≠ 0) (hlo : Ms_lo_x ≠ 0)
    (hhi : Ms_hi_x ≠ 0) :
    LaplacianDx_Mag (squareField (geom.CellSizeArray 0)) Ms_lo_x Ms_hi_x i j k geom = 2 := by
  simp only [LaplacianDx_Mag, UpwardDx, DownwardDx, squareField, if_neg hlo, if_neg hhi]
  push_cast
  field_simp
  ring

/-- Witness for C9 at index `(-3, 4, 5)` with `dx = 2/3`. -/
theorem laplacian_of_square_field_eq_two_witness :
    LaplacianDx_Mag (squareField ((geomOfSpacing (2 / 3) 1 1).CellSizeArray 0)) 5 7
      (-3) 4 5 (geomOfSpacing (2 / 3) 1 1) = 2 :=
  laplacian_of_square_field_eq_two (geomOfSpacing (2 / 3) 1 1) 5 7 (-3) 4 5
    (by norm_num [geomOfSpacing]) (by norm_num) (by norm_num)

/-- C10 as stated fails: with both indicators zero the high-side branch is taken on
both sides of the mirror, so for the ramp field at the origin with unit spacing the
mirrored configuration gives `1` while the original gives `-1`. -/
theorem mirror_symmetry_fails_when_both_zero :
    LaplacianDx_Mag (mirrorX rampField) 0 0 (-0) 0 0 (geomOfSpacing 1 1 1) = 1 ∧
    LaplacianDx_Mag rampField 0 0 0 0 0 (geomOfSpacing 1 1 1) = -1 ∧
    ¬ (∀ (F : Array4) (i j k : Int) (geom : Geometry) (Ms_lo Ms_hi : Real),
        geom.CellSizeArray 0 ≠ 0 →
        LaplacianDx_Mag (mirrorX F) Ms_hi Ms_lo (-i) j k geom
          = LaplacianDx_Mag F Ms_lo Ms_hi i j k geom) := by
  have h1 : LaplacianDx_Mag (mirrorX rampField) 0 0 (-0) 0 0 (geomOfSpacing 1 1 1) = 1 := by
    norm_num [LaplacianDx_Mag, DownwardDx, mirrorX, rampField, geomOfSpacing]
  have h2 : LaplacianDx_Mag rampField 0 0 0 0 0 (geomOfSpacing 1 1 1) = -1 := by
    norm_num [LaplacianDx_Mag, DownwardDx, rampField, geomOfSpacing]
  refine ⟨h1, h2, fun h => ?_⟩
  have h3 := h rampField 0 0 0 (geomOfSpacing 1 1 1) 0 0 (by simp [geomOfSpacing])
  rw [h1, h2] at h3
  norm_num at h3

/-- C10 (amended): mirror symmetry for every indicator pair that is not zero on
both sides. With `G` the field mirrored across the origin of an axis, the masked
Laplacian of `G` at the mirrored index with the indicators swapped equals the masked
Laplacian of `F` at the original index, for x, y and z alike. -/
theorem mirror_symmetry_unless_both_zero (F : Array4) (i j k : Int) (geom : Geometry)
    (Ms_lo Ms_hi : Real) (hne : ¬ (Ms_lo = 0 ∧ Ms_hi = 0)) :
    (geom.CellSizeArray 0 ≠ 0 →
      LaplacianDx_Mag (mirrorX F) Ms_hi Ms_lo (-i) j k geom
        = LaplacianDx_Mag F Ms_lo Ms_hi i j k geom) ∧
    (geom.CellSizeArray 1 ≠ 0 →
      LaplacianDy_Mag (mirrorY F) Ms_hi Ms_lo i (-j) k geom
        = LaplacianDy_Mag F Ms_lo Ms_hi i j k geom) ∧
    (geom.CellSizeArray 2 ≠ 0 →
      LaplacianDz_Mag (mirrorZ F) Ms_hi Ms_lo i j (-k) geom
        = LaplacianDz_Mag F Ms_lo Ms_hi i j k geom) := by
  have e1 : ∀ n : Int, -(-n + 1) = n - 1 := fun n => by ring
  have e2 : ∀ n : Int, -(-n - 1) = n + 1 := fun n => by ring
  refine ⟨fun _ => ?_, fun _ => ?_, fun _ => ?_⟩
  · by_cases hlo : Ms_lo = 0 <;> by_cases hhi : Ms_hi = 0
    · exact absurd ⟨hlo, hhi⟩ hne
    · simp only [LaplacianDx_Mag, UpwardDx, DownwardDx, mirrorX, e1, e2, neg_neg, hlo, hhi,
        if_true, if_false]
      ring
    · simp only [LaplacianDx_Mag, UpwardDx, DownwardDx, mirrorX, e1, e2, neg_neg, hlo, hhi,
        if_true, if_false]
      ring
    · simp only [LaplacianDx_Mag, UpwardDx, DownwardDx, mirrorX, e1, e2, neg_neg, hlo, hhi,
        if_true, if_false]
      ring
  · by_cases hlo : Ms_lo = 0 <;> by_cases hhi : Ms_hi = 0
    · exact absurd ⟨hlo, hhi⟩ hne
    · simp only [LaplacianDy_Mag, UpwardDy, DownwardDy, mirrorY, e1, e2, neg_neg, hlo, hhi,
        if_true, if_false]
      ring
    · simp only [LaplacianDy_Mag, UpwardDy, DownwardDy, mirrorY, e1, e2, neg_neg, hlo, hhi,
        if_true, if_false]
      ring
    · simp only [LaplacianDy_Mag, UpwardDy, DownwardDy, mirrorY, e1, e2, neg_neg, hlo, hhi,
        if_true, if_false]
      ring
  · by_cases hlo : Ms_lo = 0 <;> by_cases hhi : Ms_hi = 0
    · exact absurd ⟨hlo, hhi⟩ hne
    · simp only [LaplacianDz_Mag, UpwardDz, DownwardDz, mirrorZ, e1, e2, neg_neg, hlo, hhi,
        if_true, if_false]
      ring
    · simp only [LaplacianDz_Mag, UpwardDz, DownwardDz, mirrorZ, e1, e2, neg_neg, hlo, hhi,
        if_true, if_false]
      ring
    · simp only [LaplacianDz_Mag, UpwardDz, DownwardDz, mirrorZ, e1, e2, neg_neg, hlo, hhi,
        if_true, if_false]
      ring

/-- Witness for the amended C10 on `quadField` shifted by the ramp, at `(3,4,5)`
with spacings `2, 3, 4`, low indicator zero and high indicator `7`. -/
theorem mirror_symmetry_unless_both_zero_witness :
    LaplacianDx_Mag (mirrorX (quadField + rampField)) 7 0 (-3) 4 5 (geomOfSpacing 2 3 4)
      = LaplacianDx_Mag (quadField + rampField) 0 7 3 4 5 (geomOfSpacing 2 3 4) ∧
    LaplacianDy_Mag (mirrorY (quadField + rampField)) 7 0 3 (-4) 5 (geomOfSpacing 2 3 4)
      = LaplacianDy_Mag (quadField + rampField) 0 7 3 4 5 (geomOfSpacing 2 3 4) ∧
    LaplacianDz_Mag (mirrorZ (quadField + rampField)) 7 0 3 4 (-5) (geomOfSpacing 2 3 4)
      = LaplacianDz_Mag (quadField + rampField) 0 7 3 4 5 (geomOfSpacing 2 3 4) := by
  have h := mirror_symmetry_unless_both_zero (quadField + rampField) 3 4 5
    (geomOfSpacing 2 3 4) 0 7 (by norm_num)
  exact ⟨h.1 (by simp [geomOfSpacing]), h.2.1 (by simp [geomOfSpacing]),
    h.2.2 (by simp [geomOfSpacing])⟩

/-- C11: the result of `InitializeMagneticProperties` does not depend on what the
five fields held before. Two runs with the same values, bounds and geometry on
fields of the same layout (boxes and ghost width) but arbitrary previous contents
give equal `alpha`, `Ms`, `gamma`, `exchange` and `anisotropy`, on owned cells in
particular; consequently running the initializer again on its own output returns
that output unchanged. -/
theorem InitializeMagneticProperties_ignores_previous_contents
    (alpha Ms gamma exchange anisotropy : MultiFab)
    (alpha2 Ms2 gamma2 exchange2 anisotropy2 : MultiFab)
    (alpha_val Ms_val gamma_val exchange_val anisotropy_val : Real)
    (prob_lo prob_hi mag_lo mag_hi : GpuArray Real) (geom : Geometry)
    (h1 : alpha2.boxArray = alpha.boxArray ∧ alpha2.nGrow = alpha.nGrow)
    (h2 : Ms2.boxArray = Ms.boxArray ∧ Ms2.nGrow = Ms.nGrow)
    (h3 : gamma2.boxArray = gamma.boxArray ∧ gamma2.nGrow = gamma.nGrow)
    (h4 : exchange2.boxArray = exchange.boxArray ∧ exchange2.nGrow = exchange.nGrow)
    (h5 : anisotropy2.boxArray = anisotropy.boxArray ∧
      anisotropy2.nGrow = anisotropy.nGrow) :
    InitializeMagneticProperties alpha2 Ms2 gamma2 exchange2 anisotropy2 alpha_val Ms_val
        gamma_val exchange_val anisotropy_val prob_lo prob_hi mag_lo mag_hi geom
      = InitializeMagneticProperties alpha Ms gamma exchange anisotropy alpha_val Ms_val
        gamma_val exchange_val anisotropy_val prob_lo prob_hi mag_lo mag_hi geom ∧
    InitializeMagneticProperties
        (InitializeMagneticProperties alpha Ms gamma exchange anisotropy alpha_val Ms_val
          gamma_val exchange_val anisotropy_val prob_lo prob_hi mag_lo mag_hi geom).alpha
        (InitializeMagneticProperties alpha Ms gamma exchange anisotropy alpha_val Ms_val
          gamma_val exchange_val anisotropy_val prob_lo prob_hi mag_lo mag_hi geom).Ms
        (InitializeMagneticProperties alpha Ms gamma exchange anisotropy alpha_val Ms_val
          gamma_val exchange_val anisotropy_val prob_lo prob_hi mag_lo mag_hi geom).gamma
        (InitializeMagneticProperties alpha Ms gamma exchange anisotropy alpha_val Ms_val
          gamma_val exchange_val anisotropy_val prob_lo prob_hi mag_lo mag_hi geom).exchange
        (InitializeMagneticProperties alpha Ms gamma exchange anisotropy alpha_val Ms_val
          gamma_val exchange_val anisotropy_val prob_lo prob_hi mag_lo mag_hi
          geom).anisotropy
        alpha_val Ms_val gamma_val exchange_val anisotropy_val prob_lo prob_hi mag_lo
        mag_hi geom
      = InitializeMagneticProperties alpha Ms gamma exchange anisotropy alpha_val Ms_val
        gamma_val exchange_val anisotropy_val prob_lo prob_hi mag_lo mag_hi geom := by
  obtain ⟨⟨b1, b2, b3, b4, b5⟩, g1, g2, g3, g4, g5⟩ :=
    InitializeMagneticProperties.layout alpha Ms gamma exchange anisotropy alpha_val
      Ms_val gamma_val exchange_val anisotropy_val prob_lo prob_hi mag_lo mag_hi geom
  exact ⟨InitializeMagneticProperties.congr_layout alpha Ms gamma exchange anisotropy
      alpha2 Ms2 gamma2 exchange2 anisotropy2 alpha_val Ms_val gamma_val exchange_val
      anisotropy_val prob_lo prob_hi mag_lo mag_hi geom h1 h2 h3 h4 h5,
    InitializeMagneticProperties.congr_layout alpha Ms gamma exchange anisotropy _ _ _ _ _
      alpha_val Ms_val gamma_val exchange_val anisotropy_val prob_lo prob_hi mag_lo
      mag_hi geom ⟨b1, g1⟩ ⟨b2, g2⟩ ⟨b3, g3⟩ ⟨b4, g4⟩ ⟨b5, g5⟩⟩

/-- Witness for C11: fields holding `100, 200, ...` and fields holding `1, 2, ...` on
the fixture layout are initialised to the same five fields. -/
theorem InitializeMagneticProperties_ignores_previous_contents_witness :
    InitializeMagneticProperties (fixtureFab 100) (fixtureFab 200) (fixtureFab 300)
        (fixtureFab 400) (fixtureFab 500) 11 22 33 44 55 ![0, 0, 0] ![4, 4, 4]
        ![3 / 2, 0, 0] ![4, 4, 4] fixtureGeom
      = fixtureProperties ∧
    InitializeMagneticProperties fixtureProperties.alpha fixtureProperties.Ms
        fixtureProperties.gamma fixtureProperties.exchange fixtureProperties.anisotropy
        11 22 33 44 55 ![0, 0, 0] ![4, 4, 4] ![3 / 2, 0, 0] ![4, 4, 4] fixtureGeom
      = fixtureProperties :=
  InitializeMagneticProperties_ignores_previous_contents (fixtureFab 1) (fixtureFab 2)
    (fixtureFab 3) (fixtureFab 4) (fixtureFab 5) (fixtureFab 100) (fixtureFab 200)
    (fixtureFab 300) (fixtureFab 400) (fixtureFab 500) 11 22 33 44 55 ![0, 0, 0]
    ![4, 4, 4] ![3 / 2, 0, 0] ![4, 4, 4] fixtureGeom ⟨rfl, rfl⟩ ⟨rfl, rfl⟩ ⟨rfl, rfl⟩
    ⟨rfl, rfl⟩ ⟨rfl, rfl⟩

/-- C18: degenerate region. If `mag_lo[a] >= mag_hi[a]` on at least one axis `a`,
then for every geometry and every material value the initializer (a total function:
it always returns) leaves all five property fields equal to `0` at every owned
cell. -/
theorem InitializeMagneticProperties_degenerate_region
    (alpha Ms gamma exchange anisotropy : MultiFab)
    (alpha_val Ms_val gamma_val exchange_val anisotropy_val : Real)
    (prob_lo prob_hi mag_lo mag_hi : GpuArray Real) (geom : Geometry)
    (hMs : Ms.boxArray = alpha.boxArray) (hgamma : gamma.boxArray = alpha.boxArray)
    (hexchange : exchange.boxArray = alpha.boxArray)
    (hanisotropy : anisotropy.boxArray = alpha.boxArray)
    (hdeg : ∃ a : Fin 3, mag_lo a ≥ mag_hi a)
    (n : Nat) (bx : Box) (hbx : alpha.boxArray[n]? = some bx)
    (i j k : Int) (hcell : bx.contains i j k) :
    (InitializeMagneticProperties alpha Ms gamma exchange anisotropy alpha_val Ms_val
      gamma_val exchange_val anisotropy_val prob_lo prob_hi mag_lo mag_hi
      geom).alpha.array n i j k = 0 ∧
    (InitializeMagneticProperties alpha Ms gamma exchange anisotropy alpha_val Ms_val
      gamma_val exchange_val anisotropy_val prob_lo prob_hi mag_lo mag_hi
      geom).Ms.array n i j k = 0 ∧
    (InitializeMagneticProperties alpha Ms gamma exchange anisotropy alpha_val Ms_val
      gamma_val exchange_val anisotropy_val prob_lo prob_hi mag_lo mag_hi
      geom).gamma.array n i j k = 0 ∧
    (InitializeMagneticProperties alpha Ms gamma exchange anisotropy alpha_val Ms_val
      gamma_val exchange_val anisotropy_val prob_lo prob_hi mag_lo mag_hi
      geom).exchange.array n i j k = 0 ∧
    (InitializeMagneticProperties alpha Ms gamma exchange anisotropy alpha_val Ms_val
      gamma_val exchange_val anisotropy_val prob_lo prob_hi mag_lo mag_hi
      geom).anisotropy.array n i j k = 0 := by
  have hout : ¬ centreStrictlyInside prob_lo mag_lo mag_hi geom.CellSizeArray i j k := by
    rintro ⟨⟨x1, x2⟩, ⟨y1, y2⟩, z1, z2⟩
    obtain ⟨a, ha⟩ := hdeg
    fin_cases a
    · exact absurd (lt_trans x1 x2) (not_lt.2 ha)
    · exact absurd (lt_trans y1 y2) (not_lt.2 ha)
    · exact absurd (lt_trans z1 z2) (not_lt.2 ha)
  obtain ⟨c1, c2, c3, c4, c5⟩ := InitializeMagneticProperties.owned_cell alpha Ms gamma
    exchange anisotropy alpha_val Ms_val gamma_val exchange_val anisotropy_val prob_lo
    prob_hi mag_lo mag_hi geom hMs hgamma hexchange hanisotropy n bx hbx i j k hcell
  rw [c1, c2, c3, c4, c5]
  simp only [if_neg hout, and_self]

/-- Witness for C18 on the fixture layout with the region `(2, 2) x (0, 4) x (0, 4)`,
degenerate along x: the cell `(2,1,1)` of the second sub-region holds `0` in all five
fields. -/
theorem InitializeMagneticProperties_degenerate_region_witness :
    (InitializeMagneticProperties (fixtureFab 1) (fixtureFab 2) (fixtureFab 3)
      (fixtureFab 4) (fixtureFab 5) 11 22 33 44 55 ![0, 0, 0] ![4, 4, 4] ![2, 0, 0]
      ![2, 4, 4] fixtureGeom).alpha.array 1 2 1 1 = 0 ∧
    (InitializeMagneticProperties (fixtureFab 1) (fixtureFab 2) (fixtureFab 3)
      (fixtureFab 4) (fixtureFab 5) 11 22 33 44 55 ![0, 0, 0] ![4, 4, 4] ![2, 0, 0]
      ![2, 4, 4] fixtureGeom).Ms.array 1 2 1 1 = 0 ∧
    (InitializeMagneticProperties (fixtureFab 1) (fixtureFab 2) (fixtureFab 3)
      (fixtureFab 4) (fixtureFab 5) 11 22 33 44 55 ![0, 0, 0] ![4, 4, 4] ![2, 0, 0]
      ![2, 4, 4] fixtureGeom).gamma.array 1 2 1 1 = 0 ∧
    (InitializeMagneticProperties (fixtureFab 1) (fixtureFab 2) (fixtureFab 3)
      (fixtureFab 4) (fixtureFab 5) 11 22 33 44 55 ![0, 0, 0] ![4, 4, 4] ![2, 0, 0]
      ![2, 4, 4] fixtureGeom).exchange.array 1 2 1 1 = 0 ∧
    (InitializeMagneticProperties (fixtureFab 1) (fixtureFab 2) (fixtureFab 3)
      (fixtureFab 4) (fixtureFab 5) 11 22 33 44 55 ![0, 0, 0] ![4, 4, 4] ![2, 0, 0]
      ![2, 4, 4] fixtureGeom).anisotropy.array 1 2 1 1 = 0 :=
  InitializeMagneticProperties_degenerate_region (fixtureFab 1) (fixtureFab 2)
    (fixtureFab 3) (fixtureFab 4) (fixtureFab 5) 11 22 33 44 55 ![0, 0, 0] ![4, 4, 4]
    ![2, 0, 0] ![2, 4, 4] fixtureGeom rfl rfl rfl rfl ⟨0, by simp⟩ 1 fixtureBoxHi rfl
    2 1 1 (by simp [Box.contains, fixtureBoxHi])

/-- C15 as stated fails in the arithmetic the code runs in. In binary64 with
`dx = 0.3`, the field `[0, 1, 4, 9, 16]` on the strip `0..4`, low indicator zero at
0, high indicator zero at 4 and both nonzero in between, `LaplacianDx_Mag` returns
`6254999482459023 * 2^-49`, `6254999482459022 * 2^-48`, `6254999482459024 * 2^-48`
twice and `-5473124547151645 * 2^-46`; accumulated in binary64 they give `2^-46`,
and added without rounding they give `3 / 2^49`, not `0`. -/
theorem zero_flux_sum_nonzero_in_binary64 :
    ((scenarioMsLo64 0).m = 0 ∧ (scenarioMsHi64 0).m ≠ 0 ∧
      (∀ i ∈ [(1 : Int), 2, 3], (scenarioMsLo64 i).m ≠ 0 ∧ (scenarioMsHi64 i).m ≠ 0) ∧
      (scenarioMsHi64 4).m = 0) ∧
    fixtureGeom64.CellSizeArray 0 = ⟨5404319552844595, -54⟩ ∧
    (List.map (fun i => Binary64.LaplacianDx_Mag scenarioField64 (scenarioMsLo64 i)
        (scenarioMsHi64 i) i 0 0 fixtureGeom64) [0, 1, 2, 3, 4]
      = [some ⟨6254999482459023, -49⟩, some ⟨6254999482459022, -48⟩,
          some ⟨6254999482459024, -48⟩, some ⟨6254999482459024, -48⟩,
          some ⟨-5473124547151645, -46⟩]) ∧
    Binary64.stripSumDx scenarioField64 scenarioMsLo64 scenarioMsHi64 0 4 0 0 fixtureGeom64
      = some ⟨4503599627370496, -98⟩ ∧
    (⟨4503599627370496, -98⟩ : Binary64).toRat = 1 / 2 ^ 46 ∧
    Binary64.exactStripSumDx scenarioField64 scenarioMsLo64 scenarioMsHi64 0 4 0 0
      fixtureGeom64 = some (3 / 2 ^ 49) := by
  have hvals : List.map (fun i => Binary64.LaplacianDx_Mag scenarioField64
      (scenarioMsLo64 i) (scenarioMsHi64 i) i 0 0 fixtureGeom64) [0, 1, 2, 3, 4]
      = [some ⟨6254999482459023, -49⟩, some ⟨6254999482459022, -48⟩,
          some ⟨6254999482459024, -48⟩, some ⟨6254999482459024, -48⟩,
          some ⟨-5473124547151645, -46⟩] := by decide
  have hrange : intRange 0 4 = [0, 1, 2, 3, 4] := by decide
  refine ⟨by decide, by decide, hvals, by decide, by norm_num [Binary64.toRat], ?_⟩
  simp only [List.map_cons, List.map_nil, List.cons.injEq, and_true] at hvals
  obtain ⟨h0, h1, h2, h3, h4⟩ := hvals
  simp only [Binary64.exactStripSumDx, hrange, List.foldl_cons, List.foldl_nil, h0, h1, h2,
    h3, h4, Option.bind_some, Option.map_some', Binary64.toRat, Option.some.injEq]
  norm_num

/-- C15 (amended): discrete zero-flux conservation in exact arithmetic. Along a strip
`a..b` with `a < b`, low indicator zero and high indicator nonzero at `a`, both
indicators nonzero strictly between, and high indicator zero at `b`, the masked
per-axis Laplacians evaluated without rounding add up to exactly `0` for every field
and nonzero spacing; along x, y and z alike. -/
theorem zero_flux_conservation (F : Array4) (geom : Geometry) (Ms_lo Ms_hi : Int → Real)
    (a b : Int) (hab : a < b) (hlo_a : Ms_lo a = 0) (hhi_a : Ms_hi a ≠ 0)
    (hmid : ∀ n : Int, a < n → n < b → Ms_lo n ≠ 0 ∧ Ms_hi n ≠ 0)
    (hhi_b : Ms_hi b = 0) :
    (∀ j k : Int, geom.CellSizeArray 0 ≠ 0 → stripSumDx F Ms_lo Ms_hi a b j k geom = 0) ∧
    (∀ i k : Int, geom.CellSizeArray 1 ≠ 0 → stripSumDy F Ms_lo Ms_hi a b i k geom = 0) ∧
    (∀ i j : Int, geom.CellSizeArray 2 ≠ 0 → stripSumDz F Ms_lo Ms_hi a b i j geom = 0) := by
  have e : ∀ n : Int, n - 1 + 1 = n := fun n => by ring
  refine ⟨fun j k _ => ?_, fun i k _ => ?_, fun i j _ => ?_⟩
  · refine sum_Icc_zero_flux (fun n => F (n + 1) j k - F n j k) _
      (1 / geom.CellSizeArray 0) a b hab ?_ ?_ ?_
    · simp only [LaplacianDx_Mag, UpwardDx, if_neg hhi_a, if_pos hlo_a]
    · simp only [LaplacianDx_Mag, DownwardDx, if_pos hhi_b, e]
    · intro n h1 h2
      simp only [LaplacianDx_Mag, UpwardDx, DownwardDx, if_neg (hmid n h1 h2).1,
        if_neg (hmid n h1 h2).2, e]
  · refine sum_Icc_zero_flux (fun n => F i (n + 1) k - F i n k) _
      (1 / geom.CellSizeArray 1) a b hab ?_ ?_ ?_
    · simp only [LaplacianDy_Mag, UpwardDy, if_neg hhi_a, if_pos hlo_a]
    · simp only [LaplacianDy_Mag, DownwardDy, if_pos hhi_b, e]
    · intro n h1 h2
      simp only [LaplacianDy_Mag, UpwardDy, DownwardDy, if_neg (hmid n h1 h2).1,
        if_neg (hmid n h1 h2).2, e]
  · refine sum_Icc_zero_flux (fun n => F i j (n + 1) - F i j n) _
      (1 / geom.CellSizeArray 2) a b hab ?_ ?_ ?_
    · simp only [LaplacianDz_Mag, UpwardDz, if_neg hhi_a, if_pos hlo_a]
    · simp only [LaplacianDz_Mag, DownwardDz, if_pos hhi_b, e]
    · intro n h1 h2
      simp only [LaplacianDz_Mag, UpwardDz, DownwardDz, if_neg (hmid n h1 h2).1,
        if_neg (hmid n h1 h2).2, e]

/-- Witness for the amended C15: on `quadField` with the scenario indicators (low
zero at 0, high zero at 4) and spacings `2, 3, 4`, the three strip sums over `0..4`
vanish. -/
theorem zero_flux_conservation_witness :
    stripSumDx quadField scenarioMsLo scenarioMsHi 0 4 1 2 (geomOfSpacing 2 3 4) = 0 ∧
    stripSumDy quadField scenarioMsLo scenarioMsHi 0 4 1 2 (geomOfSpacing 2 3 4) = 0 ∧
    stripSumDz quadField scenarioMsLo scenarioMsHi 0 4 1 2 (geomOfSpacing 2 3 4) = 0 := by
  have h := zero_flux_conservation quadField (geomOfSpacing 2 3 4) scenarioMsLo
    scenarioMsHi 0 4 (by norm_num) (by simp [scenarioMsLo]) (by simp [scenarioMsHi])
    (fun n h1 h2 => by
      have p : n ≠ 0 := by omega
      have q : n ≠ 4 := by omega
      simp [scenarioMsLo, scenarioMsHi, p, q])
    (by simp [scenarioMsHi])
  exact ⟨h.1 1 2 (by simp [geomOfSpacing]), h.2.1 1 2 (by simp [geomOfSpacing]),
    h.2.2 1 2 (by simp [geomOfSpacing])⟩

/-- C16: for fixed indicators, index and geometry, `Laplacian_Mag` is linear in the
field: the Laplacian of `a*F + b*G` is `a` times that of `F` plus `b` times that of
`G`, for all fields and scalars. -/
theorem Laplacian_Mag_linear (F G : Array4) (a b : Real)
    (Ms_lo_x Ms_hi_x Ms_lo_y Ms_hi_y Ms_lo_z Ms_hi_z : Real) (i j k : Int)
    (geom : Geometry) :
    Laplacian_Mag (linearCombination a b F G) Ms_lo_x Ms_hi_x Ms_lo_y Ms_hi_y Ms_lo_z
        Ms_hi_z i j k geom
      = a * Laplacian_Mag F Ms_lo_x Ms_hi_x Ms_lo_y Ms_hi_y Ms_lo_z Ms_hi_z i j k geom
        + b * Laplacian_Mag G Ms_lo_x Ms_hi_x Ms_lo_y Ms_hi_y Ms_lo_z Ms_hi_z i j k geom := by
  have hx : LaplacianDx_Mag (linearCombination a b F G) Ms_lo_x Ms_hi_x i j k geom
      = a * LaplacianDx_Mag F Ms_lo_x Ms_hi_x i j k geom
        + b * LaplacianDx_Mag G Ms_lo_x Ms_hi_x i j k geom := by
    simp only [LaplacianDx_Mag, UpwardDx, DownwardDx, linearCombination]
    split_ifs <;> ring
  have hy : LaplacianDy_Mag (linearCombination a b F G) Ms_lo_y Ms_hi_y i j k geom
      = a * LaplacianDy_Mag F Ms_lo_y Ms_hi_y i j k geom
        + b * LaplacianDy_Mag G Ms_lo_y Ms_hi_y i j k geom := by
    simp only [LaplacianDy_Mag, UpwardDy, DownwardDy, linearCombination]
    split_ifs <;> ring
  have hz : LaplacianDz_Mag (linearCombination a b F G) Ms_lo_z Ms_hi_z i j k geom
      = a * LaplacianDz_Mag F Ms_lo_z Ms_hi_z i j k geom
        + b * LaplacianDz_Mag G Ms_lo_z Ms_hi_z i j k geom := by
    simp only [LaplacianDz_Mag, UpwardDz, DownwardDz, linearCombination]
    split_ifs <;> ring
  simp only [Laplacian_Mag, hx, hy, hz]
  ring

/-- C17: on a spatially constant field, `Laplacian_Mag` and each of
`LaplacianDx_Mag`, `LaplacianDy_Mag`, `LaplacianDz_Mag` return `0` at every index,
for every geometry and every combination of indicators, pairs that are both zero
included. -/
theorem Laplacian_Mag_of_constant_field (c : Real)
    (Ms_lo_x Ms_hi_x Ms_lo_y Ms_hi_y Ms_lo_z Ms_hi_z : Real) (i j k : Int)
    (geom : Geometry) :
    Laplacian_Mag (constField c) Ms_lo_x Ms_hi_x Ms_lo_y Ms_hi_y Ms_lo_z Ms_hi_z i j k
      geom = 0 ∧
    LaplacianDx_Mag (constField c) Ms_lo_x Ms_hi_x i j k geom = 0 ∧
    LaplacianDy_Mag (constField c) Ms_lo_y Ms_hi_y i j k geom = 0 ∧
    LaplacianDz_Mag (constField c) Ms_lo_z Ms_hi_z i j k geom = 0 := by
  have hx : LaplacianDx_Mag (constField c) Ms_lo_x Ms_hi_x i j k geom = 0 := by
    simp only [LaplacianDx_Mag, UpwardDx, DownwardDx, constField]
    split_ifs <;> ring
  have hy : LaplacianDy_Mag (constField c) Ms_lo_y Ms_hi_y i j k geom = 0 := by
    simp only [LaplacianDy_Mag, UpwardDy, DownwardDy, constField]
    split_ifs <;> ring
  have hz : LaplacianDz_Mag (constField c) Ms_lo_z Ms_hi_z i j k geom = 0 := by
    simp only [LaplacianDz_Mag, UpwardDz, DownwardDz, constField]
    split_ifs <;> ring
  refine ⟨?_, hx, hy, hz⟩
  simp only [Laplacian_Mag, hx, hy, hz]
  ring

/-- C14: `SetPhiBC_z` patches z-ghost values only. With `n_cell[2]` a cell count
(nonnegative), for the sub-region of index `n` with valid box `vbx`: every cell of
the one-cell-grown box with `k < 0` holds `Phi_Bc_lo` afterwards, every cell of it
with `k >= n_cell[2]` holds `Phi_Bc_hi`, and every cell with `0 <= k < n_cell[2]`,
interior cells and x/y ghost cells alike, keeps its value. -/
theorem SetPhiBC_z_patches_z_ghosts_only (PoissonPhi : MultiFab) (n_cell : GpuArray Int)
    (Phi_Bc_lo Phi_Bc_hi : Real) (hn : 0 ≤ n_cell 2)
    (n : Nat) (vbx : Box) (hbx : PoissonPhi.boxArray[n]? = some vbx) (i j k : Int) :
    ((vbx.grow 1).contains i j k → k < 0 →
      (SetPhiBC_z PoissonPhi n_cell Phi_Bc_lo Phi_Bc_hi).array n i j k = Phi_Bc_lo) ∧
    ((vbx.grow 1).contains i j k → k ≥ n_cell 2 →
      (SetPhiBC_z PoissonPhi n_cell Phi_Bc_lo Phi_Bc_hi).array n i j k = Phi_Bc_hi) ∧
    (0 ≤ k → k < n_cell 2 →
      (SetPhiBC_z PoissonPhi n_cell Phi_Bc_lo Phi_Bc_hi).array n i j k
        = PoissonPhi.array n i j k) := by
  have h := SetPhiBC_z.forEach_phi_at n_cell Phi_Bc_lo Phi_Bc_hi PoissonPhi.boxArray 0 n
    PoissonPhi vbx hbx
  simp only [Nat.zero_add] at h
  have hcell : (SetPhiBC_z PoissonPhi n_cell Phi_Bc_lo Phi_Bc_hi).array n i j k
      = if (vbx.grow 1).contains i j k then
          (if k < 0 then Phi_Bc_lo else if k ≥ n_cell 2 then Phi_Bc_hi
            else PoissonPhi.array n i j k)
        else PoissonPhi.array n i j k := by
    unfold SetPhiBC_z
    rw [h]
    simp only [ParallelFor, MFIter.growntilebox, SetPhiBC_z.foldl_phi_kernel, Box.mem_cells]
  refine ⟨fun hc hk => ?_, fun hc hk => ?_, fun h0 hk => ?_⟩
  · rw [hcell, if_pos hc, if_pos hk]
  · have h0 : ¬ k < 0 := by omega
    rw [hcell, if_pos hc, if_neg h0, if_pos hk]
  · have h1 : ¬ k < 0 := by omega
    have h2 : ¬ k ≥ n_cell 2 := by omega
    rw [hcell]
    simp only [if_neg h1, if_neg h2, ite_self]

/-- Witness for C14 on the fixture potential with `n_cell = (4,4,4)`: in the first
sub-region the ghost cell `(1,1,-1)` receives `Phi_Bc_lo = 5`, the ghost cell
`(1,1,4)` receives `Phi_Bc_hi = 9`, and the x-ghost cell `(-1,1,2)` keeps `209`. -/
theorem SetPhiBC_z_patches_z_ghosts_only_witness :
    (SetPhiBC_z fixturePhi ![4, 4, 4] 5 9).array 0 1 1 (-1) = 5 ∧
    (SetPhiBC_z fixturePhi ![4, 4, 4] 5 9).array 0 1 1 4 = 9 ∧
    (SetPhiBC_z fixturePhi ![4, 4, 4] 5 9).array 0 (-1) 1 2 = 209 := by
  refine ⟨?_, ?_, ?_⟩
  · exact (SetPhiBC_z_patches_z_ghosts_only fixturePhi ![4, 4, 4] 5 9 (by simp) 0
      fixtureBoxLo rfl 1 1 (-1)).1 (by simp [Box.contains, Box.grow, fixtureBoxLo])
      (by norm_num)
  · exact (SetPhiBC_z_patches_z_ghosts_only fixturePhi ![4, 4, 4] 5 9 (by simp) 0
      fixtureBoxLo rfl 1 1 4).2.1 (by simp [Box.contains, Box.grow, fixtureBoxLo])
      (by simp)
  · have h := (SetPhiBC_z_patches_z_ghosts_only fixturePhi ![4, 4, 4] 5 9 (by simp) 0
      fixtureBoxLo rfl (-1) 1 2).2.2 (by norm_num) (by simp)
    rw [h]
    norm_num [fixturePhi]

/-- C13: for positive spacings and a nonzero `Ms_val`, the owned cells that the
initializer marks as material (nonzero `Ms`) form an axis-aligned rectangular block:
an owned cell is material iff `i`, `j` and `k` each lie in the integer interval
`materialLo d .. materialHi d` of their own axis (possibly empty, and determined by
that axis alone); hence if `(i1,j,k)` and `(i2,j,k)` are material, every owned cell
`(i,j,k)` with `i1 <= i <= i2` is material, and likewise along y and z. -/
theorem material_cells_form_a_block
    (alpha Ms gamma exchange anisotropy : MultiFab)
    (alpha_val Ms_val gamma_val exchange_val anisotropy_val : Real)
    (prob_lo prob_hi mag_lo mag_hi : GpuArray Real) (geom : Geometry)
    (hMs : Ms.boxArray = alpha.boxArray) (hgamma : gamma.boxArray = alpha.boxArray)
    (hexchange : exchange.boxArray = alpha.boxArray)
    (hanisotropy : anisotropy.boxArray = alpha.boxArray)
    (hdx : ∀ d, 0 < geom.CellSizeArray d) (hval : Ms_val ≠ 0) :
    let r := InitializeMagneticProperties alpha Ms gamma exchange anisotropy alpha_val
      Ms_val gamma_val exchange_val anisotropy_val prob_lo prob_hi mag_lo mag_hi geom
    let lo := materialLo prob_lo mag_lo geom.CellSizeArray
    let hi := materialHi prob_lo mag_hi geom.CellSizeArray
    (∀ (n : Nat) (i j k : Int), alpha.ownsAt n i j k →
      (r.Ms.array n i j k ≠ 0
        ↔ (lo 0 ≤ i ∧ i ≤ hi 0) ∧ (lo 1 ≤ j ∧ j ≤ hi 1) ∧ (lo 2 ≤ k ∧ k ≤ hi 2))) ∧
    (∀ (n1 n2 n : Nat) (i1 i2 i j k : Int),
      alpha.ownsAt n1 i1 j k → r.Ms.array n1 i1 j k ≠ 0 →
      alpha.ownsAt n2 i2 j k → r.Ms.array n2 i2 j k ≠ 0 →
      i1 ≤ i → i ≤ i2 → alpha.ownsAt n i j k → r.Ms.array n i j k ≠ 0) ∧
    (∀ (n1 n2 n : Nat) (j1 j2 i j k : Int),
      alpha.ownsAt n1 i j1 k → r.Ms.array n1 i j1 k ≠ 0 →
      alpha.ownsAt n2 i j2 k → r.Ms.array n2 i j2 k ≠ 0 →
      j1 ≤ j → j ≤ j2 → alpha.ownsAt n i j k → r.Ms.array n i j k ≠ 0) ∧
    (∀ (n1 n2 n : Nat) (k1 k2 i j k : Int),
      alpha.ownsAt n1 i j k1 → r.Ms.array n1 i j k1 ≠ 0 →
      alpha.ownsAt n2 i j k2 → r.Ms.array n2 i j k2 ≠ 0 →
      k1 ≤ k → k ≤ k2 → alpha.ownsAt n i j k → r.Ms.array n i j k ≠ 0) := by
  intro r lo hi
  have key : ∀ (n : Nat) (i j k : Int), alpha.ownsAt n i j k →
      (r.Ms.array n i j k ≠ 0
        ↔ (lo 0 ≤ i ∧ i ≤ hi 0) ∧ (lo 1 ≤ j ∧ j ≤ hi 1) ∧ (lo 2 ≤ k ∧ k ≤ hi 2)) := by
    intro n i j k hown
    obtain ⟨bx, hbx, hcell⟩ := (MultiFab.ownsAt_iff alpha n i j k).1 hown
    exact (InitializeMagneticProperties.Ms_ne_zero_iff alpha Ms gamma exchange anisotropy
      alpha_val Ms_val gamma_val exchange_val anisotropy_val prob_lo prob_hi mag_lo mag_hi
      geom hMs hgamma hexchange hanisotropy hval n bx hbx i j k hcell).trans
      (centreStrictlyInside_iff_block prob_lo mag_lo mag_hi geom.CellSizeArray hdx i j k)
  refine ⟨key, ?_, ?_, ?_⟩
  · intro n1 n2 n i1 i2 i j k o1 m1 o2 m2 h1 h2 o
    obtain ⟨⟨a1, _⟩, hj, hk⟩ := (key n1 i1 j k o1).1 m1
    obtain ⟨⟨_, a2⟩, _, _⟩ := (key n2 i2 j k o2).1 m2
    exact (key n i j k o).2 ⟨⟨le_trans a1 h1, le_trans h2 a2⟩, hj, hk⟩
  · intro n1 n2 n j1 j2 i j k o1 m1 o2 m2 h1 h2 o
    obtain ⟨hi0, ⟨a1, _⟩, hk⟩ := (key n1 i j1 k o1).1 m1
    obtain ⟨_, ⟨_, a2⟩, _⟩ := (key n2 i j2 k o2).1 m2
    exact (key n i j k o).2 ⟨hi0, ⟨le_trans a1 h1, le_trans h2 a2⟩, hk⟩
  · intro n1 n2 n k1 k2 i j k o1 m1 o2 m2 h1 h2 o
    obtain ⟨hi0, hj, a1, _⟩ := (key n1 i j k1 o1).1 m1
    obtain ⟨_, _, _, a2⟩ := (key n2 i j k2 o2).1 m2
    exact (key n i j k o).2 ⟨hi0, hj, le_trans a1 h1, le_trans h2 a2⟩

/-- Witness for C13 on the fixture (region `(3/2, 4) x (0, 4) x (0, 4)`, unit
spacing): cell `(2,1,1)` lies in the block and is material, cell `(1,1,1)` lies
outside it and is not, and `(2,2,1)` is material as it lies between the material
cells `(2,0,1)` and `(2,3,1)`. -/
theorem material_cells_form_a_block_witness :
    fixtureProperties.Ms.array 1 2 1 1 ≠ 0 ∧ ¬ fixtureProperties.Ms.array 0 1 1 1 ≠ 0 ∧
    fixtureProperties.Ms.array 1 2 2 1 ≠ 0 := by
  have h := material_cells_form_a_block (fixtureFab 1) (fixtureFab 2) (fixtureFab 3)
    (fixtureFab 4) (fixtureFab 5) 11 22 33 44 55 ![0, 0, 0] ![4, 4, 4] ![3 / 2, 0, 0]
    ![4, 4, 4] fixtureGeom rfl rfl rfl rfl
    (by intro d; fin_cases d <;> simp [fixtureGeom]) (by norm_num)
  have own : ∀ j : Int, 0 ≤ j → j ≤ 3 → (fixtureFab 1).ownsAt 1 2 j 1 := by
    intro j h0 h3
    simp [MultiFab.ownsAt, fixtureFab, Box.contains, fixtureBoxHi, h0, h3]
  have mat : ∀ j : Int, 0 ≤ j → j ≤ 3 → fixtureProperties.Ms.array 1 2 j 1 ≠ 0 := by
    intro j h0 h3
    refine (h.1 1 2 j 1 (own j h0 h3)).2 ?_
    simp only [materialLo, materialHi, Int.add_one_le_iff, Int.le_sub_one_iff,
      Int.floor_lt, Int.lt_ceil]
    have q0 : (0 : Real) ≤ j := by exact_mod_cast h0
    have q3 : (j : Real) ≤ 3 := by exact_mod_cast h3
    refine ⟨⟨?_, ?_⟩, ⟨?_, ?_⟩, ?_, ?_⟩ <;> norm_num [fixtureGeom] <;> linarith
  refine ⟨mat 1 (by norm_num) (by norm_num), fun hne => ?_,
    h.2.2.1 1 1 1 0 3 2 2 1 (own 0 (by norm_num) (by norm_num))
      (mat 0 (by norm_num) (by norm_num)) (own 3 (by norm_num) (by norm_num))
      (mat 3 (by norm_num) (by norm_num)) (by norm_num) (by norm_num)
      (own 2 (by norm_num) (by norm_num))⟩
  have hb := (h.1 0 1 1 1
    (by simp [MultiFab.ownsAt, fixtureFab, Box.contains, fixtureBoxLo])).1 hne
  have hx := hb.1.1
  simp only [materialLo, Int.add_one_le_iff, Int.floor_lt] at hx
  norm_num [fixtureGeom] at hx

/-- C12 as stated fails: with unit spacing and `Ms_val = 22`, the region `(1, 2)^3`
holds the centre of the owned cell `(1,1,1)` only; that cell has `Ms = 22` while
both of its neighbours hold `Ms = 0` along x, along y and along z. -/
theorem material_cell_with_background_neighbours :
    (∀ d, 0 < fixtureGeom.CellSizeArray d) ∧
    isolatedCellProperties.Ms.array 0 1 1 1 = 22 ∧
    (isolatedCellProperties.Ms.array 0 0 1 1 = 0 ∧
      isolatedCellProperties.Ms.array 0 2 1 1 = 0) ∧
    (isolatedCellProperties.Ms.array 0 1 0 1 = 0 ∧
      isolatedCellProperties.Ms.array 0 1 2 1 = 0) ∧
    (isolatedCellProperties.Ms.array 0 1 1 0 = 0 ∧
      isolatedCellProperties.Ms.array 0 1 1 2 = 0) := by
  have cell : ∀ i j k : Int, fixtureBoxWhole.contains i j k →
      isolatedCellProperties.Ms.array 0 i j k
        = if centreStrictlyInside ![0, 0, 0] ![1, 1, 1] ![2, 2, 2]
            fixtureGeom.CellSizeArray i j k then 22 else 0 :=
    fun i j k hc => (InitializeMagneticProperties.owned_cell (fixtureFabWhole 1)
      (fixtureFabWhole 2) (fixtureFabWhole 3) (fixtureFabWhole 4) (fixtureFabWhole 5)
      11 22 33 44 55 ![0, 0, 0] ![4, 4, 4] ![1, 1, 1] ![2, 2, 2] fixtureGeom rfl rfl rfl
      rfl 0 fixtureBoxWhole rfl i j k hc).2.1
  refine ⟨by intro d; fin_cases d <;> simp [fixtureGeom], ?_, ⟨?_, ?_⟩, ⟨?_, ?_⟩, ?_, ?_⟩
  all_goals
    rw [cell _ _ _ (by simp [Box.contains, fixtureBoxWhole])]
    norm_num [centreStrictlyInside, cellCentre, fixtureGeom]

/-- C12 (amended): with positive spacings, a nonzero `Ms_val`, sub-regions that tile
the index domain and at least one ghost cell on `Ms`, every owned cell whose `Ms` is
nonzero has a neighbour with nonzero `Ms` along each axis on which some other owned
cell of the same grid line has nonzero `Ms`, that is, on which the material block
is at least two owned cells wide. The neighbour is read in the sub-region of the
cell, as a valid or as a ghost cell. -/
theorem material_cell_has_material_neighbour_in_wider_block
    (alpha Ms gamma exchange anisotropy : MultiFab)
    (alpha_val Ms_val gamma_val exchange_val anisotropy_val : Real)
    (prob_lo prob_hi mag_lo mag_hi : GpuArray Real) (geom : Geometry)
    (hMs : Ms.boxArray = alpha.boxArray) (hgamma : gamma.boxArray = alpha.boxArray)
    (hexchange : exchange.boxArray = alpha.boxArray)
    (hanisotropy : anisotropy.boxArray = alpha.boxArray)
    (hghost : 1 ≤ Ms.nGrow)
    (hcover : ∀ i j k : Int, alpha.ownsCell i j k ↔ geom.Domain.contains i j k)
    (hdx : ∀ d, 0 < geom.CellSizeArray d) (hval : Ms_val ≠ 0)
    (n : Nat) (i j k : Int) (hown : alpha.ownsAt n i j k) :
    let r := InitializeMagneticProperties alpha Ms gamma exchange anisotropy alpha_val
      Ms_val gamma_val exchange_val anisotropy_val prob_lo prob_hi mag_lo mag_hi geom
    r.Ms.array n i j k ≠ 0 →
      ((∃ (m : Nat) (i2 : Int), i2 ≠ i ∧ alpha.ownsAt m i2 j k ∧ r.Ms.array m i2 j k ≠ 0) →
        r.Ms.array n (i - 1) j k ≠ 0 ∨ r.Ms.array n (i + 1) j k ≠ 0) ∧
      ((∃ (m : Nat) (j2 : Int), j2 ≠ j ∧ alpha.ownsAt m i j2 k ∧ r.Ms.array m i j2 k ≠ 0) →
        r.Ms.array n i (j - 1) k ≠ 0 ∨ r.Ms.array n i (j + 1) k ≠ 0) ∧
      ((∃ (m : Nat) (k2 : Int), k2 ≠ k ∧ alpha.ownsAt m i j k2 ∧ r.Ms.array m i j k2 ≠ 0) →
        r.Ms.array n i j (k - 1) ≠ 0 ∨ r.Ms.array n i j (k + 1) ≠ 0) := by
  intro r hmat
  have other : ∀ (m : Nat) (a b c : Int), alpha.ownsAt m a b c → r.Ms.array m a b c ≠ 0 →
      geom.Domain.contains a b c ∧
      ((materialLo prob_lo mag_lo geom.CellSizeArray 0 ≤ a ∧
          a ≤ materialHi prob_lo mag_hi geom.CellSizeArray 0) ∧
        (materialLo prob_lo mag_lo geom.CellSizeArray 1 ≤ b ∧
          b ≤ materialHi prob_lo mag_hi geom.CellSizeArray 1) ∧
        (materialLo prob_lo mag_lo geom.CellSizeArray 2 ≤ c ∧
          c ≤ materialHi prob_lo mag_hi geom.CellSizeArray 2)) := by
    intro m a b c ho hm
    obtain ⟨bm, hbm, hcm⟩ := (MultiFab.ownsAt_iff alpha m a b c).1 ho
    exact ⟨(hcover a b c).1 (MultiFab.ownsCell_of_ownsAt alpha m a b c ho),
      (centreStrictlyInside_iff_block prob_lo mag_lo mag_hi geom.CellSizeArray hdx a b c).1
        ((InitializeMagneticProperties.Ms_ne_zero_iff alpha Ms gamma exchange anisotropy
          alpha_val Ms_val gamma_val exchange_val anisotropy_val prob_lo prob_hi mag_lo
          mag_hi geom hMs hgamma hexchange hanisotropy hval m bm hbm a b c hcm).1 hm)⟩
  obtain ⟨bx, hbx, hcell⟩ := (MultiFab.ownsAt_iff alpha n i j k).1 hown
  have step : ∀ a b c : Int, (bx.grow Ms.nGrow).contains a b c →
      geom.Domain.contains a b c →
      ((materialLo prob_lo mag_lo geom.CellSizeArray 0 ≤ a ∧
          a ≤ materialHi prob_lo mag_hi geom.CellSizeArray 0) ∧
        (materialLo prob_lo mag_lo geom.CellSizeArray 1 ≤ b ∧
          b ≤ materialHi prob_lo mag_hi geom.CellSizeArray 1) ∧
        (materialLo prob_lo mag_lo geom.CellSizeArray 2 ≤ c ∧
          c ≤ materialHi prob_lo mag_hi geom.CellSizeArray 2)) →
      r.Ms.array n a b c ≠ 0 :=
    fun a b c hg hd hb => InitializeMagneticProperties.Ms_seen_ne_zero alpha Ms gamma
      exchange anisotropy alpha_val Ms_val gamma_val exchange_val anisotropy_val prob_lo
      prob_hi mag_lo mag_hi geom hMs hval n bx hbx a b c hg ((hcover a b c).2 hd)
      ((centreStrictlyInside_iff_block prob_lo mag_lo mag_hi geom.CellSizeArray hdx
        a b c).2 hb)
  obtain ⟨hdom, ⟨lx, ux⟩, ⟨ly, uy⟩, lz, uz⟩ := other n i j k hown hmat
  simp only [Box.contains] at hcell hdom
  refine ⟨?_, ?_, ?_⟩
  · rintro ⟨m, i2, hne, ho, hm⟩
    obtain ⟨hd2, ⟨l2, u2⟩, _, _⟩ := other m i2 j k ho hm
    simp only [Box.contains] at hd2
    rcases lt_or_gt_of_ne hne with hlt | hgt
    · refine Or.inl (step (i - 1) j k ?_ ?_ ⟨⟨by omega, by omega⟩, ⟨ly, uy⟩, lz, uz⟩)
      · simp only [Box.contains, Box.grow]
        omega
      · simp only [Box.contains]
        omega
    · refine Or.inr (step (i + 1) j k ?_ ?_ ⟨⟨by omega, by omega⟩, ⟨ly, uy⟩, lz, uz⟩)
      · simp only [Box.contains, Box.grow]
        omega
      · simp only [Box.contains]
        omega
  · rintro ⟨m, j2, hne, ho, hm⟩
    obtain ⟨hd2, _, ⟨l2, u2⟩, _⟩ := other m i j2 k ho hm
    simp only [Box.contains] at hd2
    rcases lt_or_gt_of_ne hne with hlt | hgt
    · refine Or.inl (step i (j - 1) k ?_ ?_ ⟨⟨lx, ux⟩, ⟨by omega, by omega⟩, lz, uz⟩)
      · simp only [Box.contains, Box.grow]
        omega
      · simp only [Box.contains]
        omega
    · refine Or.inr (step i (j + 1) k ?_ ?_ ⟨⟨lx, ux⟩, ⟨by omega, by omega⟩, lz, uz⟩)
      · simp only [Box.contains, Box.grow]
        omega
      · simp only [Box.contains]
        omega
  · rintro ⟨m, k2, hne, ho, hm⟩
    obtain ⟨hd2, _, _, l2, u2⟩ := other m i j k2 ho hm
    simp only [Box.contains] at hd2
    rcases lt_or_gt_of_ne hne with hlt | hgt
    · refine Or.inl (step i j (k - 1) ?_ ?_ ⟨⟨lx, ux⟩, ⟨ly, uy⟩, by omega, by omega⟩)
      · simp only [Box.contains, Box.grow]
        omega
      · simp only [Box.contains]
        omega
    · refine Or.inr (step i j (k + 1) ?_ ?_ ⟨⟨lx, ux⟩, ⟨ly, uy⟩, by omega, by omega⟩)
      · simp only [Box.contains, Box.grow]
        omega
      · simp only [Box.contains]
        omega

/-- Witness for the amended C12 on the two-box fixture with the region
`(1, 3) x (0, 4) x (0, 4)`: the material cell `(1,1,1)` of the first sub-region has
the material cells `(2,1,1)` (across the seam), `(1,2,1)` and `(1,1,2)` in its grid
lines, and a neighbour with nonzero `Ms` along each axis. -/
theorem material_cell_has_material_neighbour_in_wider_block_witness :
    (seamProperties.Ms.array 0 (1 - 1) 1 1 ≠ 0 ∨ seamProperties.Ms.array 0 (1 + 1) 1 1 ≠ 0) ∧
    (seamProperties.Ms.array 0 1 (1 - 1) 1 ≠ 0 ∨ seamProperties.Ms.array 0 1 (1 + 1) 1 ≠ 0) ∧
    (seamProperties.Ms.array 0 1 1 (1 - 1) ≠ 0 ∨
      seamProperties.Ms.array 0 1 1 (1 + 1) ≠ 0) := by
  have mat : ∀ (n : Nat) (bx : Box) (i j k : Int), (fixtureFab 1).boxArray[n]? = some bx →
      bx.contains i j k →
      centreStrictlyInside ![0, 0, 0] ![1, 0, 0] ![3, 4, 4] fixtureGeom.CellSizeArray i j k →
      seamProperties.Ms.array n i j k ≠ 0 :=
    fun n bx i j k hbx hc hin => (InitializeMagneticProperties.Ms_ne_zero_iff (fixtureFab 1)
      (fixtureFab 2) (fixtureFab 3) (fixtureFab 4) (fixtureFab 5) 11 22 33 44 55
      ![0, 0, 0] ![4, 4, 4] ![1, 0, 0] ![3, 4, 4] fixtureGeom rfl rfl rfl rfl (by norm_num)
      n bx hbx i j k hc).2 hin
  have h := material_cell_has_material_neighbour_in_wider_block (fixtureFab 1)
    (fixtureFab 2) (fixtureFab 3) (fixtureFab 4) (fixtureFab 5) 11 22 33 44 55 ![0, 0, 0]
    ![4, 4, 4] ![1, 0, 0] ![3, 4, 4] fixtureGeom rfl rfl rfl rfl
    (by simp [fixtureFab])
    (by
      intro i j k
      simp only [MultiFab.ownsCell, fixtureFab, Box.contains, fixtureBoxLo, fixtureBoxHi,
        fixtureGeom, List.mem_cons, List.mem_singleton, exists_eq_or_imp, exists_eq_left,
        Matrix.cons_val_zero, Matrix.cons_val_one, Matrix.cons_val_two, Matrix.head_cons,
        Matrix.tail_cons, List.not_mem_nil, false_and, exists_false, or_false]
      omega)
    (by intro d; fin_cases d <;> simp [fixtureGeom]) (by norm_num) 0 1 1 1
    (by simp [MultiFab.ownsAt, fixtureFab, Box.contains, fixtureBoxLo])
    (mat 0 fixtureBoxLo 1 1 1 rfl (by simp [Box.contains, fixtureBoxLo])
      (by norm_num [centreStrictlyInside, cellCentre, fixtureGeom]))
  refine ⟨h.1 ⟨1, 2, by norm_num, ?_, ?_⟩, h.2.1 ⟨0, 2, by norm_num, ?_, ?_⟩,
    h.2.2 ⟨0, 2, by norm_num, ?_, ?_⟩⟩
  · simp [MultiFab.ownsAt, fixtureFab, Box.contains, fixtureBoxHi]
  · exact mat 1 fixtureBoxHi 2 1 1 rfl (by simp [Box.contains, fixtureBoxHi])
      (by norm_num [centreStrictlyInside, cellCentre, fixtureGeom])
  · simp [MultiFab.ownsAt, fixtureFab, Box.contains, fixtureBoxLo]
  · exact mat 0 fixtureBoxLo 1 2 1 rfl (by simp [Box.contains, fixtureBoxLo])
      (by norm_num [centreStrictlyInside, cellCentre, fixtureGeom])
  · simp [MultiFab.ownsAt, fixtureFab, Box.contains, fixtureBoxLo]
  · exact mat 0 fixtureBoxLo 1 1 2 rfl (by simp [Box.contains, fixtureBoxLo])
      (by norm_num [centreStrictlyInside, cellCentre, fixtureGeom])

end MicroMag
